import Mathlib

/-!
Verification development for the `initium` declarative data-seeding engine.

The definitions below are a shallow embedding of the Rust sources:
  * `src/seed/db.rs`      — identifier sanitizer and the database driver surface,
  * `src/duration.rs`     — duration parsing and formatting,
  * `src/seed/executor.rs`— value resolution, row/table/seed-set/phase execution.

Modelling conventions, stated once here and referenced from the individual
definitions:
  * Rust `String` values are Lean `String`/`List Char`; machine integers are
    `Nat`/`Int` (no overflow is reachable at the sizes involved).
  * Fallible Rust functions returning `Result<T, String>` become
    `Except String T`; driver calls additionally thread an explicit state
    record and append to a call trace, so that ordering claims
    (rollback-before-return, mark-before-commit) are statable.
  * The IEEE-754 `f64` arithmetic of `src/duration.rs` is embedded as exact
    decimal arithmetic (`DecV`, values of the form `num / 10 ^ exp`), and
    `Duration::from_secs_f64` as round-to-nearest-nanosecond.  Every value the
    parser manipulates is such a decimal, so this is value-exact; it agrees
    with the `f64` computation on every concrete string appearing in this
    development and on every duration below 2^22 seconds (where the f64
    computation is exact to under half a nanosecond); theorems about the
    round trip carry that bound.
  * Rust's Unicode-aware `char::is_alphanumeric` is embedded exactly on the
    code points U+0000..U+024F (ASCII, Latin-1 Supplement and the Latin
    Extended blocks); code points above U+024F do not occur in this
    development and are mapped to `false`.
-/

/-! ## Association-list helpers (the embedding of `HashMap` lookups) -/

/-- Lookup in an association list; embeds `HashMap::get` (first binding wins,
which matches overwrite-by-cons-front used below). -/
def alGet {β : Type} (k : String) : List (String × β) → Option β
  | [] => none
  | (k', v) :: t => if k' = k then some v else alGet k t

/-- Replace the binding of `k` (or append it); embeds in-place update of a
keyed table store. -/
def alSet {β : Type} (k : String) (v : β) : List (String × β) → List (String × β)
  | [] => [(k, v)]
  | (k', v') :: t => if k' = k then (k, v) :: t else (k', v') :: alSet k v t

/-- Append `x` if it is not already present; embeds `INSERT … ON CONFLICT DO
NOTHING` / `INSERT OR IGNORE` on a single-column key. -/
def insertIfAbsent {α : Type} [DecidableEq α] (x : α) (l : List α) : List α :=
  if x ∈ l then l else l ++ [x]

theorem alGet_alSet_self {β : Type} (k : String) (v : β) :
    ∀ m : List (String × β), alGet k (alSet k v m) = some v := by
  intro m
  induction m with
  | nil => simp [alGet, alSet]
  | cons h t ih =>
    obtain ⟨k', v'⟩ := h
    by_cases hk : k' = k <;> simp [alGet, alSet, hk, ih]

theorem alGet_alSet_ne {β : Type} (k k' : String) (v : β) (hne : k ≠ k') :
    ∀ m : List (String × β), alGet k' (alSet k v m) = alGet k' m := by
  intro m
  induction m with
  | nil => simp [alGet, alSet, hne]
  | cons h t ih =>
    obtain ⟨k₀, v₀⟩ := h
    by_cases hk : k₀ = k
    · simp [alGet, alSet, hk, hne]
    · simp only [alSet, if_neg hk]
      by_cases hk' : k₀ = k' <;> simp [alGet, hk', ih]

/-! ## Decimal numerals

`natDecimal n` is the decimal rendering of `n` (the embedding of Rust's
`format!("{}", n)` for unsigned integers), defined with structural fuel so
that it evaluates inside the kernel. -/

/-- The character of a decimal digit (`0 ≤ d ≤ 9`). -/
def digitChar : ℕ → Char
  | 0 => '0' | 1 => '1' | 2 => '2' | 3 => '3' | 4 => '4'
  | 5 => '5' | 6 => '6' | 7 => '7' | 8 => '8' | _ => '9'

/-- Big-endian digit list of `n`, with explicit fuel (empty for `n = 0`). -/
def ndAux : ℕ → ℕ → List Char
  | 0, _ => []
  | fuel + 1, n => if n = 0 then [] else ndAux fuel (n / 10) ++ [digitChar (n % 10)]

/-- Decimal rendering of a natural number. -/
def natDecimal (n : ℕ) : List Char := if n = 0 then ['0'] else ndAux (n + 1) n

/-- Decimal rendering of an integer (embeds `i64`/`serde_yaml::Number`
rendering for integral numbers). -/
def intDecimalStr (n : ℤ) : String :=
  if n < 0 then "-" ++ String.mk (natDecimal n.natAbs) else String.mk (natDecimal n.natAbs)

/-- Numeric value of a big-endian digit string (used by the duration-parsing
embedding to give the value of a digit run). -/
def digitsVal (l : List Char) : ℕ := l.foldl (fun a c => 10 * a + (c.toNat - 48)) 0

theorem digitChar_toNat {d : ℕ} (h : d < 10) : (digitChar d).toNat - 48 = d := by
  interval_cases d <;> rfl

theorem digitChar_isDigit {d : ℕ} (h : d < 10) : (digitChar d).isDigit = true := by
  interval_cases d <;> rfl

theorem ndAux_foldl (fuel : ℕ) : ∀ n a, n ≤ fuel →
    (ndAux fuel n).foldl (fun a c => 10 * a + (c.toNat - 48)) a =
      a * 10 ^ (ndAux fuel n).length + n := by
  induction fuel with
  | zero => intro n a h; interval_cases n; simp [ndAux]
  | succ fuel ih =>
    intro n a h
    by_cases hn : n = 0
    · simp [ndAux, hn]
    · have hdiv : n / 10 ≤ fuel := by omega
      have hmod : n % 10 < 10 := Nat.mod_lt _ (by omega)
      simp only [ndAux, if_neg hn, List.foldl_append, List.length_append,
        List.foldl_cons, List.foldl_nil, List.length_cons, List.length_nil]
      rw [ih (n / 10) a hdiv, digitChar_toNat hmod]
      have : n = 10 * (n / 10) + n % 10 := (Nat.div_add_mod' n 10).symm ▸ by omega
      ring_nf
      omega

theorem digitsVal_natDecimal (n : ℕ) : digitsVal (natDecimal n) = n := by
  by_cases hn : n = 0
  · simp [natDecimal, hn, digitsVal, List.foldl]
  · simp only [natDecimal, if_neg hn, digitsVal]
    have := ndAux_foldl (n + 1) n 0 (by omega)
    simpa using this

theorem ndAux_mem_isDigit (fuel : ℕ) : ∀ n c, c ∈ ndAux fuel n → c.isDigit = true := by
  induction fuel with
  | zero => intro n c h; simp [ndAux] at h
  | succ fuel ih =>
    intro n c h
    by_cases hn : n = 0
    · simp [ndAux, hn] at h
    · simp only [ndAux, if_neg hn, List.mem_append, List.mem_singleton] at h
      rcases h with h | h
      · exact ih _ _ h
      · subst h; exact digitChar_isDigit (Nat.mod_lt _ (by omega))

theorem natDecimal_mem_isDigit (n : ℕ) : ∀ c ∈ natDecimal n, c.isDigit = true := by
  intro c hc
  by_cases hn : n = 0
  · simp [natDecimal, hn] at hc; subst hc; rfl
  · simp only [natDecimal, if_neg hn] at hc
    exact ndAux_mem_isDigit _ _ _ hc

theorem natDecimal_ne_nil (n : ℕ) : natDecimal n ≠ [] := by
  by_cases hn : n = 0
  · simp [natDecimal, hn]
  · simp only [natDecimal, if_neg hn, ndAux]
    simp [hn]

/-! ## Identifier sanitizer (`src/seed/db.rs`, `sanitize_identifier`) -/

/-- Embedding of Rust `char::is_alphanumeric` (the Unicode `Alphabetic`
property plus the `Nd`/`Nl`/`No` number categories), exact on the code points
U+0000..U+024F; larger code points do not occur in this development and are
mapped to `false` (see the header note). -/
def rustIsAlphanumeric (c : Char) : Bool :=
  let n := c.toNat
  c.isAlphanum ||
    n == 0xAA || n == 0xB5 || n == 0xB9 || n == 0xBA ||
    (0xB2 ≤ n && n ≤ 0xB3) || (0xBC ≤ n && n ≤ 0xBE) ||
    (0xC0 ≤ n && n ≤ 0x24F && !(n == 0xD7) && !(n == 0xF7))

/-- Embedding of `sanitize_identifier` (`db.rs:720-724`):
`name.chars().filter(|c| c.is_alphanumeric() || *c == '_').collect()`. -/
def sanitize_identifier (name : String) : String :=
  String.mk (name.data.filter (fun c => rustIsAlphanumeric c || c == '_'))

/-- ASCII identifier class `[A-Za-z0-9_]` (the class named by the spec). -/
def isAsciiIdentChar (c : Char) : Bool :=
  (('A' ≤ c && c ≤ 'Z') || ('a' ≤ c && c ≤ 'z') || ('0' ≤ c && c ≤ '9') || c == '_')

/-- Placeholder list `?1, ?2, …` of the SQLite `insert_row` SQL builder. -/
def sqlitePlaceholders (k : ℕ) : List String :=
  (List.range k).map (fun i => "?" ++ String.mk (natDecimal (i + 1)))

/-- Embedding of the SQL string built by `SqliteDb::insert_row`
(`db.rs:103-129`): identifiers pass through `sanitize_identifier` and are
double-quoted; values become numbered placeholders. -/
def sqliteInsertSql (table : String) (columns : List String) : String :=
  "INSERT INTO \"" ++ sanitize_identifier table ++ "\" (" ++
    String.intercalate ", " (columns.map (fun c => "\"" ++ sanitize_identifier c ++ "\"")) ++
    ") VALUES (" ++ String.intercalate ", " (sqlitePlaceholders columns.length) ++ ")"

/-! ## Duration parsing and formatting (`src/duration.rs`)

`parse_duration` mirrors the Rust function line by line on `List Char`.  The
`f64` seconds value is carried as an exact decimal `DecV` (see the header
note), and `Duration::from_secs_f64` becomes `roundNs`.  The loop over
`{number}{unit}` segments carries structural fuel: every iteration of the
Rust loop consumes at least one character, so `input.length + 1` units of
fuel are never exhausted (the fuel-out branch is unreachable and returns an
error). -/

/-- Exact nonnegative decimal value `num / 10 ^ exp`; the embedding of the
(seconds-valued) `f64` quantities of `parse_duration`, on which the source's
arithmetic is value-exact. -/
structure DecV where
  num : ℕ
  exp : ℕ
deriving DecidableEq

/-- Exact addition of decimal values (aligns the exponents). -/
def DecV.add (a b : DecV) : DecV :=
  ⟨a.num * 10 ^ (max a.exp b.exp - a.exp) + b.num * 10 ^ (max a.exp b.exp - b.exp),
    max a.exp b.exp⟩

/-- Rational value of a decimal (used only in proofs). -/
def DecV.toQ (v : DecV) : ℚ := (v.num : ℚ) / 10 ^ v.exp

/-- Round a decimal count of seconds to nanoseconds: the embedding of
`Duration::from_secs_f64` (round to nearest; no representable tie is
reachable from the strings of this development). -/
def roundNs (v : DecV) : ℕ := (2 * v.num * 1000000000 + 10 ^ v.exp) / (2 * 10 ^ v.exp)

/-- The four duration units of `duration.rs`. -/
inductive DUnit
  | ms | s | m | h
deriving DecidableEq

/-- The `n * multiplier` step of the segment loop: multiplication by
0.001 / 1 / 60 / 3600, exact on decimals. -/
def applyUnit : DUnit → DecV → DecV
  | .ms, v => ⟨v.num, v.exp + 3⟩
  | .s, v => v
  | .m, v => ⟨v.num * 60, v.exp⟩
  | .h, v => ⟨v.num * 3600, v.exp⟩

/-- Whitespace trim of both ends (the embedding of `str::trim`). -/
def trimChars (l : List Char) : List Char :=
  ((l.dropWhile Char.isWhitespace).reverse.dropWhile Char.isWhitespace).reverse

/-- Index of the first ASCII-alphabetic character, the embedding of
`bytes().position(|b| b.is_ascii_alphabetic())` (on ASCII input the byte and
character positions coincide; a non-ASCII character makes the surrounding
number parse fail in both the source and this model). -/
def findAlphaIdx : List Char → Option ℕ
  | [] => none
  | c :: t => if c.isAlpha then some 0 else (findAlphaIdx t).map (· + 1)

/-- Split a character list at its first `'.'` (embeds `splitn(2, '.')`:
`none` means no dot at all). -/
def splitFirstDot : List Char → Option (List Char × List Char)
  | [] => none
  | c :: t =>
    if c = '.' then some ([], t)
    else (splitFirstDot t).map (fun p => (c :: p.1, p.2))

/-- Value of a numeral accepted by `f64::from_str` restricted to the
sign/digits/dot forms reachable here (exponent notation and `inf`/`NaN`
contain letters, which the callers have already excluded).  Returns the sign
and the magnitude; a `true` sign with magnitude zero is `-0.0`, which the
source's `n < 0.0` check lets through. -/
def parseNumD (l : List Char) : Option (Bool × DecV) :=
  let core : List Char → Option DecV := fun t =>
    match splitFirstDot t with
    | none => if t ≠ [] ∧ t.all Char.isDigit then some ⟨digitsVal t, 0⟩ else none
    | some (ip, fp) =>
      if ('.' ∉ fp) ∧ ip.all Char.isDigit ∧ fp.all Char.isDigit ∧ (ip ≠ [] ∨ fp ≠ []) then
        some ⟨digitsVal ip * 10 ^ fp.length + digitsVal fp, fp.length⟩
      else none
  match l with
  | '-' :: t => (core t).map (fun v => (true, v))
  | '+' :: t => (core t).map (fun v => (false, v))
  | t => (core t).map (fun v => (false, v))

/-- Negativity of a parsed number (`n < 0.0` on the f64 side; `-0.0` is not
negative). -/
def numIsNeg (p : Bool × DecV) : Bool := p.1 && p.2.num != 0

/-- Unit recognition at the head of the remaining input, in the source's
order: `ms` before `h` before `m` before `s` (`duration.rs:54-67`); yields
the unit and the number of characters consumed. -/
def unitAt : List Char → Option (DUnit × ℕ)
  | 'm' :: 's' :: _ => some (.ms, 2)
  | 'h' :: _ => some (.h, 1)
  | 'm' :: _ => some (.m, 1)
  | 's' :: _ => some (.s, 1)
  | _ => none

/-- The `{number}{unit}` segment loop of `parse_duration`
(`duration.rs:36-79`), accumulating seconds in `acc`. -/
def segLoop (orig : List Char) : ℕ → List Char → DecV → Except String DecV
  | _, [], acc => .ok acc
  | 0, _, _ => .error ("invalid duration '" ++ String.mk orig ++ "'")
  | fuel + 1, rem, acc =>
    match findAlphaIdx rem with
    | none => .error ("invalid duration '" ++ String.mk orig ++ "': trailing number without unit")
    | some 0 => .error ("invalid duration '" ++ String.mk orig ++ "': expected a number before unit")
    | some numEnd =>
      let numStr := rem.take numEnd
      let afterNum := rem.drop numEnd
      match unitAt afterNum with
      | none =>
        .error ("invalid duration '" ++ String.mk orig ++ "': unknown unit at '" ++
          String.mk afterNum ++ "'")
      | some (u, consumed) =>
        match parseNumD numStr with
        | none =>
          .error ("invalid duration '" ++ String.mk orig ++ "': bad number '" ++
            String.mk numStr ++ "'")
        | some n =>
          if numIsNeg n then
            .error ("duration must not be negative: '" ++ String.mk orig ++ "'")
          else segLoop orig fuel (afterNum.drop consumed) (acc.add (applyUnit u n.2))

/-- Embedding of `parse_duration` (`duration.rs:11-89`); the result is the
parsed `Duration` as a count of nanoseconds. -/
def parse_duration (input : String) : Except String ℕ :=
  let cs := trimChars input.data
  if cs = [] then .error "empty duration string"
  else if cs.all (fun c => c.isDigit || c = '.') then
    match parseNumD cs with
    | none =>
      .error ("invalid duration '" ++ String.mk cs ++
        "': expected a number with optional unit (ms, s, m, h)")
    | some n =>
      if numIsNeg n then .error ("duration must not be negative: '" ++ String.mk cs ++ "'")
      else .ok (roundNs n.2)
  else
    match segLoop cs (cs.length + 1) cs ⟨0, 0⟩ with
    | .error e => .error e
    | .ok total => .ok (roundNs total)

/-- One component of `format_duration`'s `parts` vector. -/
def fmtPart (n : ℕ) (u : List Char) : List (List Char) :=
  if n > 0 then [natDecimal n ++ u] else []

/-- Embedding of `format_duration` (`duration.rs:94-126`); the argument is a
`Duration` as nanoseconds. -/
def format_duration (d : ℕ) : String :=
  let total_ms := d / 1000000
  if total_ms = 0 then "0s"
  else
    let total_secs := d / 1000000000
    let ms := d % 1000000000 / 1000000
    let h := total_secs / 3600
    let m := total_secs % 3600 / 60
    let s := total_secs % 60
    let parts := fmtPart h ['h'] ++ fmtPart m ['m'] ++ fmtPart s ['s'] ++ fmtPart ms ['m', 's']
    if parts.isEmpty then "0s" else String.mk parts.flatten

/-! ## Plan data model (`src/seed/schema.rs`)

Rows are parsed by the source into `HashMap<String, serde_yaml::Value>`; a
Rust `HashMap` does not retain declaration order and iterates in an
arbitrary (seed-randomized) order.  The embedding therefore represents a row
as the list of its bindings *in iteration order*; where a claim speaks about
the declaration order of the spec file, the two lists are related by an
explicit permutation hypothesis. -/

/-- Scalar values of a row map (`serde_yaml::Value` restricted to the forms
named by the spec; `other` carries the `{:?}` debug rendering of the
remaining forms, and numbers are integral — float-valued YAML numbers are
outside this model). -/
inductive Value
  | str (s : String)
  | num (n : ℤ)
  | bool (b : Bool)
  | null
  | other (dbg : String)
deriving DecidableEq

/-- A row map in `HashMap` iteration order. -/
abbrev RowMap := List (String × Value)

/-- Embedding of `AutoIdConfig` (`schema.rs:51-58`). -/
structure AutoIdConfig where
  column : String
  id_type : String
deriving DecidableEq

/-- Embedding of `TableSeed` (`schema.rs:39-49`). -/
structure TableSeed where
  table : String
  order : ℤ
  unique_key : List String
  auto_id : Option AutoIdConfig
  rows : List RowMap
deriving DecidableEq

/-- Embedding of `SeedSet` (`schema.rs:31-37`). -/
structure SeedSet where
  name : String
  order : ℤ
  tables : List TableSeed
deriving DecidableEq

/-- Embedding of `WaitForObject` (`schema.rs:87-94`); the per-object timeout
is in seconds (`Option<u64>`). -/
structure WaitForObject where
  obj_type : String
  name : String
  timeout : Option ℕ
deriving DecidableEq

/-- Embedding of `SeedPhase` (`schema.rs:64-81`); the timeout is in seconds
(`u64`, default 30). -/
structure SeedPhase where
  name : String
  order : ℤ
  database : String
  schema : String
  create_if_missing : Bool
  wait_for : List WaitForObject
  timeout : ℕ
  seed_sets : List SeedSet
deriving DecidableEq

/-- Embedding of `SeedPlan` (`schema.rs:4-9`), restricted to the fields the
executor reads (the connection configuration is consumed by the CLI glue). -/
structure SeedPlan where
  phases : List SeedPhase
deriving DecidableEq

/-! ## Stable sorting (`sort_by_key`)

Rust's `sort_by_key` is stable.  `stableSort lt` is insertion sort in which
a newly inserted element is placed *after* every element it is not strictly
less than, which is exactly stability: elements with equal keys keep their
original relative order. -/

/-- Insert `x` after every element `y` with `¬ lt x y`. -/
def stableInsert {α : Type} (lt : α → α → Bool) (x : α) : List α → List α
  | [] => [x]
  | y :: t => if lt x y then x :: y :: t else y :: stableInsert lt x t

/-- Stable sort by the strict comparison `lt` (embeds `sort_by_key`; for
`sort_by_key(|t| Reverse(k(t)))` use `lt a b := k b < k a`). -/
def stableSort {α : Type} (lt : α → α → Bool) (l : List α) : List α :=
  l.foldl (fun acc x => stableInsert lt x acc) []

/-- Ascending comparison on `TableSeed.order` (for `tables.sort_by_key(|t| t.order)`). -/
def tsLtAsc (a b : TableSeed) : Bool := a.order < b.order

/-- Descending comparison on `TableSeed.order` (for
`tables.sort_by_key(|t| Reverse(t.order))`). -/
def tsLtDesc (a b : TableSeed) : Bool := b.order < a.order

/-- Ascending comparison on `SeedSet.order`. -/
def ssLtAsc (a b : SeedSet) : Bool := a.order < b.order

/-- Descending comparison on `SeedSet.order`. -/
def ssLtDesc (a b : SeedSet) : Bool := b.order < a.order

/-- Ascending comparison on `SeedPhase.order` (for `phases.sort_by_key(|p| p.order)`). -/
def phLtAsc (a b : SeedPhase) : Bool := a.order < b.order

/-! ## Abstract database driver (`src/seed/db.rs`)

The three drivers implement one capability surface; the executor only sees
that surface, so the model is a single abstract driver over an explicit
state: committed table contents, tracking-table contents, a catalog of
existing objects, and an optional transaction snapshot.  A transaction is
modelled by snapshotting `(tables, tracking)` at `BEGIN` and restoring the
snapshot at `ROLLBACK` — uncommitted writes never become durable, which is
exactly the guarantee the SQL transaction gives (even when the `ROLLBACK`
statement itself errors, e.g. on a dead connection).  DDL (`objects`) is not
transactional, matching the backends.  Failures of `insert_row`,
`delete_rows` and `rollback_transaction` are injected through `Faults`
oracles; the remaining operations fail only on connection-level events
outside this model.  `insert_row` returns a generated id
(`last_insert_rowid`-style: the new row count); every driver call appends an
event to the trace `tr`, which is what ordering claims quantify over. -/

/-- A stored row: sanitized column names paired with the bound values. -/
abbrev DbRow := List (String × String)

/-- Driver call events (the call log of one execution). -/
inductive Ev
  | ensure (table : String)
  | isApplied (table seed_set : String)
  | mark (table seed_set : String)
  | removeMark (table seed_set : String)
  | insert (table : String) (columns vals : List String)
  | rowExists (table : String) (columns vals : List String)
  | delete (table : String)
  | begin
  | commit
  | rollback
  | createDb (name : String)
  | createSchema (name : String)
  | objExists (obj_type name : String)
deriving DecidableEq

/-- The durable state captured by `BEGIN` and restored by `ROLLBACK`. -/
structure Snapshot where
  tables : List (String × List DbRow)
  tracking : List (String × List String)
deriving DecidableEq

/-- The full execution state: the database (`tables`, `tracking`, `objects`,
`snap`), the executor's reference store `refs`, and the driver call trace
`tr`. -/
structure ExecSt where
  tables : List (String × List DbRow)
  tracking : List (String × List String)
  objects : List (String × String)
  snap : Option Snapshot
  refs : List (String × List (String × String))
  tr : List Ev
deriving DecidableEq

/-- Failure oracles for the driver operations whose errors the claims range
over. -/
structure Faults where
  insertFail : String → List String → List String → Option String
  deleteFail : String → Option String
  rollbackFail : Option String

/-- Executor configuration: failure oracles, the process environment, the
tracking-table name and the reset flag. -/
structure Cfg where
  faults : Faults
  env : List (String × String)
  tracking_table : String
  reset : Bool

/-- Rows of a (sanitized-keyed) table. -/
def tableRows (s : ExecSt) (table : String) : List DbRow :=
  (alGet (sanitize_identifier table) s.tables).getD []

/-- Marks of a tracking table. -/
def trackList (s : ExecSt) (table : String) : List String :=
  (alGet (sanitize_identifier table) s.tracking).getD []

/-- Driver `ensure_tracking_table`: idempotent DDL (`CREATE TABLE IF NOT
EXISTS`). -/
def ensure_tracking_table (table : String) (s : ExecSt) : Except String Unit × ExecSt :=
  (.ok (), { s with
    objects := insertIfAbsent ("table", sanitize_identifier table) s.objects,
    tracking := if (alGet (sanitize_identifier table) s.tracking).isSome then s.tracking
      else alSet (sanitize_identifier table) [] s.tracking,
    tr := s.tr ++ [.ensure table] })

/-- Driver `is_seed_applied`. -/
def is_seed_applied (table seed_set : String) (s : ExecSt) : Except String Bool × ExecSt :=
  (.ok (seed_set ∈ trackList s table), { s with tr := s.tr ++ [.isApplied table seed_set] })

/-- Driver `mark_seed_applied` (`INSERT … ON CONFLICT DO NOTHING`). -/
def mark_seed_applied (table seed_set : String) (s : ExecSt) : Except String Unit × ExecSt :=
  (.ok (), { s with
    tracking := alSet (sanitize_identifier table) (insertIfAbsent seed_set (trackList s table))
      s.tracking,
    tr := s.tr ++ [.mark table seed_set] })

/-- Driver `remove_seed_mark`. -/
def remove_seed_mark (table seed_set : String) (s : ExecSt) : Except String Unit × ExecSt :=
  (.ok (), { s with
    tracking := alSet (sanitize_identifier table) ((trackList s table).filter (· ≠ seed_set))
      s.tracking,
    tr := s.tr ++ [.removeMark table seed_set] })

/-- Driver `insert_row`; identifiers are sanitized, values bound as given.
The returned generated id models `last_insert_rowid` (the id column is a
backend-generated integer key; its concrete value is the new row count,
which is what a fresh integer primary key yields on an untouched table). -/
def insert_row (f : Faults) (table : String) (columns vals : List String)
    (s : ExecSt) : Except String (Option ℤ) × ExecSt :=
  match f.insertFail table columns vals with
  | some e =>
    (.error ("inserting row into '" ++ table ++ "': " ++ e),
      { s with tr := s.tr ++ [.insert table columns vals] })
  | none =>
    let old := tableRows s table
    (.ok (some ((old.length : ℤ) + 1)),
      { s with
        tables := alSet (sanitize_identifier table)
          (old ++ [(columns.map sanitize_identifier).zip vals]) s.tables,
        tr := s.tr ++ [.insert table columns vals] })

/-- Pure part of `row_exists`: some stored row agrees with every
`(column, value)` pair of the key tuple (`SELECT COUNT(*) … WHERE c1 = v1
AND …` is positive). -/
def rowExistsB (s : ExecSt) (table : String) (uc uv : List String) : Bool :=
  (tableRows s table).any (fun r =>
    ((uc.map sanitize_identifier).zip uv).all (fun p => r.contains p))

/-- Driver `row_exists`; an empty key list returns `false` without a query
(`db.rs:137-139`). -/
def row_exists (table : String) (uc uv : List String) (s : ExecSt) :
    Except String Bool × ExecSt :=
  if uc.isEmpty then (.ok false, s)
  else (.ok (rowExistsB s table uc uv), { s with tr := s.tr ++ [.rowExists table uc uv] })

/-- Driver `delete_rows` (`DELETE FROM T`, returning the affected count). -/
def delete_rows (f : Faults) (table : String) (s : ExecSt) : Except String ℕ × ExecSt :=
  match f.deleteFail table with
  | some e => (.error ("deleting rows from '" ++ table ++ "': " ++ e), s)
  | none =>
    (.ok (tableRows s table).length,
      { s with tables := alSet (sanitize_identifier table) [] s.tables,
               tr := s.tr ++ [.delete table] })

/-- Driver `begin_transaction`: snapshot the durable state. -/
def begin_transaction (s : ExecSt) : Except String Unit × ExecSt :=
  (.ok (), { s with snap := some ⟨s.tables, s.tracking⟩, tr := s.tr ++ [.begin] })

/-- Driver `commit_transaction`: a no-op unless a transaction is active. -/
def commit_transaction (s : ExecSt) : Except String Unit × ExecSt :=
  match s.snap with
  | none => (.ok (), s)
  | some _ => (.ok (), { s with snap := none, tr := s.tr ++ [.commit] })

/-- Driver `rollback_transaction`: a no-op unless a transaction is active;
otherwise the snapshot is restored (uncommitted writes are never durable,
see the section note) and the statement may additionally fail through the
`rollbackFail` oracle. -/
def rollback_transaction (f : Faults) (s : ExecSt) : Except String Unit × ExecSt :=
  match s.snap with
  | none => (.ok (), s)
  | some sn =>
    let s' := { s with tables := sn.tables, tracking := sn.tracking, snap := none,
                       tr := s.tr ++ [.rollback] }
    match f.rollbackFail with
    | some e => (.error ("rolling back transaction: " ++ e), s')
    | none => (.ok (), s')

/-- Driver `create_database` (the `IF NOT EXISTS` form shared by the
backends that support it). -/
def create_database (name : String) (s : ExecSt) : Except String Unit × ExecSt :=
  (.ok (), { s with
    objects := insertIfAbsent ("database", sanitize_identifier name) s.objects,
    tr := s.tr ++ [.createDb name] })

/-- Driver `create_schema`. -/
def create_schema (name : String) (s : ExecSt) : Except String Unit × ExecSt :=
  (.ok (), { s with
    objects := insertIfAbsent ("schema", sanitize_identifier name) s.objects,
    tr := s.tr ++ [.createSchema name] })

/-- Driver `object_exists` (catalog probe; the probed name is the raw name,
exactly as the backends bind it as a query parameter). -/
def object_exists (obj_type name : String) (s : ExecSt) : Except String Bool × ExecSt :=
  (.ok ((obj_type, name) ∈ s.objects), { s with tr := s.tr ++ [.objExists obj_type name] })

/-! ## Value resolution (`executor.rs:272-311`) -/

/-- Remainder of `l` after the prefix `p` (embeds `str::strip_prefix`). -/
def stripPrefixL : List Char → List Char → Option (List Char)
  | [], l => some l
  | _, [] => none
  | p :: pt, c :: ct => if p = c then stripPrefixL pt ct else none

/-- Embedding of `resolve_reference` (`executor.rs:291-311`); `expr` is the
text after the `@ref:` marker. -/
def resolve_reference (refs : List (String × List (String × String))) (expr : List Char) :
    Except String String :=
  match splitFirstDot expr with
  | none =>
    .error ("invalid reference '" ++ String.mk expr ++ "': expected format 'ref_name.column'")
  | some (n, c) =>
    match alGet (String.mk n) refs with
    | none =>
      .error ("reference '" ++ String.mk n ++ "' not found (ensure it appears before use)")
    | some m =>
      match alGet (String.mk c) m with
      | some v => .ok v
      | none =>
        .error ("column '" ++ String.mk c ++ "' not found in reference '" ++ String.mk n ++ "'")

/-- Embedding of `resolve_value` (`executor.rs:272-289`). -/
def resolve_value (refs : List (String × List (String × String)))
    (env : List (String × String)) : Value → Except String String
  | .str s =>
    match stripPrefixL "@ref:".data s.data with
    | some expr => resolve_reference refs expr
    | none =>
      match stripPrefixL "$env:".data s.data with
      | some v =>
        match alGet (String.mk v) env with
        | some x => .ok x
        | none => .error ("environment variable '" ++ String.mk v ++ "' not set")
      | none => .ok s
  | .num n => .ok (intDecimalStr n)
  | .bool b => .ok (if b then "true" else "false")
  | .null => .ok ""
  | .other d => .ok d

/-! ## Row, table and seed-set execution (`executor.rs:147-270`) -/

/-- The four parallel arrays built per row (`executor.rs:214-231`). -/
structure RowArrays where
  columns : List String
  vals : List String
  ucols : List String
  uvals : List String
deriving DecidableEq

/-- The per-row loop of `apply_table_seed` that fills the parallel arrays in
the iteration order of the row map, skipping the `_ref` key and mirroring
each key present in `unique_key` into the unique arrays
(`executor.rs:219-231`). -/
def buildArrays (refs : List (String × List (String × String)))
    (env : List (String × String)) (uk : List String) : RowMap → Except String RowArrays
  | [] => .ok ⟨[], [], [], []⟩
  | (k, v) :: t =>
    if k = "_ref" then buildArrays refs env uk t
    else
      match resolve_value refs env v with
      | .error e => .error e
      | .ok r =>
        match buildArrays refs env uk t with
        | .error e => .error e
        | .ok a =>
          .ok ⟨k :: a.columns, r :: a.vals,
            if uk.contains k then k :: a.ucols else a.ucols,
            if uk.contains k then r :: a.uvals else a.uvals⟩

/-- The `_ref` extraction of `executor.rs:209-212` (`get("_ref")` followed by
`as_str`). -/
def rowRefName (row : RowMap) : Option String :=
  match alGet "_ref" row with
  | some (.str r) => some r
  | _ => none

/-- Insert-and-capture tail of the row routine (`executor.rs:249-261`): the
row is inserted; when a `_ref` name was declared the submitted columns with
their resolved values (plus the generated id under the `auto_id` column,
when both exist) are recorded in the reference store.  A duplicate column
submitted later overwrites the earlier one in the `HashMap`, which the
association list mirrors by reversal / cons-front. -/
def insertAndCapture (cfg : Cfg) (ts : TableSeed) (row : RowMap) (a : RowArrays)
    (s : ExecSt) : Except String Unit × ExecSt :=
  match insert_row cfg.faults ts.table a.columns a.vals s with
  | (.error e, s1) => (.error e, s1)
  | (.ok gid, s1) =>
    match rowRefName row with
    | none => (.ok (), s1)
    | some r =>
      let base := (a.columns.zip a.vals).reverse
      let rm :=
        match ts.auto_id, gid with
        | some ai, some i => (ai.column, intDecimalStr i) :: base
        | _, _ => base
      (.ok (), { s1 with refs := (r, rm) :: s1.refs })

/-- One row of `apply_table_seed` (`executor.rs:208-266`): build the arrays,
skip the row when `unique_key` is non-empty and the key tuple already
exists, otherwise insert and capture. -/
def processRow (cfg : Cfg) (ts : TableSeed) (row : RowMap) (s : ExecSt) :
    Except String Unit × ExecSt :=
  match buildArrays s.refs cfg.env ts.unique_key row with
  | .error e => (.error e, s)
  | .ok a =>
    if ts.unique_key.isEmpty then insertAndCapture cfg ts row a s
    else
      match row_exists ts.table a.ucols a.uvals s with
      | (.error e, s1) => (.error e, s1)
      | (.ok true, s1) => (.ok (), s1)
      | (.ok false, s1) => insertAndCapture cfg ts row a s1

/-- The row loop of `apply_table_seed`. -/
def applyRows (cfg : Cfg) (ts : TableSeed) : List RowMap → ExecSt → Except String Unit × ExecSt
  | [], s => (.ok (), s)
  | r :: t, s =>
    match processRow cfg ts r s with
    | (.error e, s') => (.error e, s')
    | (.ok _, s') => applyRows cfg ts t s'

/-- Embedding of `apply_table_seed` (`executor.rs:198-270`). -/
def apply_table_seed (cfg : Cfg) (ts : TableSeed) (s : ExecSt) : Except String Unit × ExecSt :=
  applyRows cfg ts ts.rows s

/-- The table loop of `apply_seed_set_tables`. -/
def applyTablesLoop (cfg : Cfg) : List TableSeed → ExecSt → Except String Unit × ExecSt
  | [], s => (.ok (), s)
  | ts :: t, s =>
    match apply_table_seed cfg ts s with
    | (.error e, s') => (.error e, s')
    | (.ok _, s') => applyTablesLoop cfg t s'

/-- Embedding of `apply_seed_set_tables` (`executor.rs:189-196`): apply the
tables in ascending stable `order`. -/
def apply_seed_set_tables (cfg : Cfg) (ss : SeedSet) (s : ExecSt) :
    Except String Unit × ExecSt :=
  applyTablesLoop cfg (stableSort tsLtAsc ss.tables) s

/-- The reset-mode delete loop (`executor.rs:154-162`). -/
def resetDeletes (cfg : Cfg) : List TableSeed → ExecSt → Except String Unit × ExecSt
  | [], s => (.ok (), s)
  | ts :: t, s =>
    match delete_rows cfg.faults ts.table s with
    | (.error e, s') => (.error e, s')
    | (.ok _, s') => resetDeletes cfg t s'

/-- The reset-mode prologue of `execute_seed_set` (`executor.rs:151-164`):
delete the seed set's tables in descending stable `order`, then remove the
tracking mark; a no-op outside reset mode. -/
def resetPart (cfg : Cfg) (ss : SeedSet) (s : ExecSt) : Except String Unit × ExecSt :=
  if cfg.reset then
    match resetDeletes cfg (stableSort tsLtDesc ss.tables) s with
    | (.error e, s') => (.error e, s')
    | (.ok _, s') => remove_seed_mark cfg.tracking_table ss.name s'
  else (.ok (), s)

/-- Embedding of `execute_seed_set` (`executor.rs:147-187`).  Note the error
branch: `rollback_transaction` is called through `?`, so a failing rollback
propagates its own error in place of the annotated original. -/
def execute_seed_set (cfg : Cfg) (ss : SeedSet) (s : ExecSt) : Except String Unit × ExecSt :=
  match resetPart cfg ss s with
  | (.error e, s0) => (.error e, s0)
  | (.ok _, s0) =>
    match is_seed_applied cfg.tracking_table ss.name s0 with
    | (.error e, s1) => (.error e, s1)
    | (.ok true, s1) => (.ok (), s1)
    | (.ok false, s1) =>
      match begin_transaction s1 with
      | (.error e, s2) => (.error e, s2)
      | (.ok _, s2) =>
        match apply_seed_set_tables cfg ss s2 with
        | (.ok _, s3) =>
          match mark_seed_applied cfg.tracking_table ss.name s3 with
          | (.error e, s4) => (.error e, s4)
          | (.ok _, s4) =>
            match commit_transaction s4 with
            | (.error e, s5) => (.error e, s5)
            | (.ok _, s5) => (.ok (), s5)
        | (.error e, s3) =>
          match rollback_transaction cfg.faults s3 with
          | (.error e2, s4) => (.error e2, s4)
          | (.ok _, s4) => (.error ("seed set '" ++ ss.name ++ "' failed: " ++ e), s4)

/-! ## Phase execution (`executor.rs:32-145`) -/

/-- Embedding of `wait_for_object` (`executor.rs:93-145`).  The engine is
single-threaded and the database state cannot change between polls of the
same run, so the poll loop is equivalent to a single `object_exists` probe:
success returns at once and failure reaches the deadline with the timeout
message.  The effective timeout is the per-object one when present, else the
phase timeout (seconds). -/
def wait_for_object (wf : WaitForObject) (phase_timeout : ℕ) (s : ExecSt) :
    Except String Unit × ExecSt :=
  let eff := wf.timeout.getD phase_timeout
  match object_exists wf.obj_type wf.name s with
  | (.ok true, s') => (.ok (), s')
  | (.ok false, s') =>
    (.error ("timeout after " ++ format_duration (eff * 1000000000) ++ " waiting for " ++
      wf.obj_type ++ " '" ++ wf.name ++ "'"), s')
  | (.error e, s') =>
    (.error ("error checking " ++ wf.obj_type ++ " '" ++ wf.name ++ "' on driver: " ++ e), s')

/-- The `wait_for` loop of `execute_phase`. -/
def waitLoop (phase_timeout : ℕ) : List WaitForObject → ExecSt → Except String Unit × ExecSt
  | [], s => (.ok (), s)
  | wf :: t, s =>
    match wait_for_object wf phase_timeout s with
    | (.error e, s') => (.error e, s')
    | (.ok _, s') => waitLoop phase_timeout t s'

/-- The `create_if_missing` DDL preflight of `execute_phase`
(`executor.rs:55-70`). -/
def createStep (ph : SeedPhase) (s : ExecSt) : Except String Unit × ExecSt :=
  if ph.create_if_missing then
    match (if ph.database ≠ "" then create_database ph.database s else (.ok (), s)) with
    | (.error e, s') => (.error e, s')
    | (.ok _, s') => if ph.schema ≠ "" then create_schema ph.schema s' else (.ok (), s')
  else (.ok (), s)

/-- The seed-set loop of `execute_phase`. -/
def seedSetsLoop (cfg : Cfg) : List SeedSet → ExecSt → Except String Unit × ExecSt
  | [], s => (.ok (), s)
  | ss :: t, s =>
    match execute_seed_set cfg ss s with
    | (.error e, s') => (.error e, s')
    | (.ok _, s') => seedSetsLoop cfg t s'

/-- Embedding of `execute_phase` (`executor.rs:51-91`): DDL preflight, the
wait-for probes, then the seed sets sorted by `order` — ascending, or
descending in reset mode. -/
def execute_phase (cfg : Cfg) (ph : SeedPhase) (s : ExecSt) : Except String Unit × ExecSt :=
  match createStep ph s with
  | (.error e, s1) => (.error e, s1)
  | (.ok _, s1) =>
    match waitLoop ph.timeout ph.wait_for s1 with
    | (.error e, s2) => (.error e, s2)
    | (.ok _, s2) =>
      seedSetsLoop cfg
        (if cfg.reset then stableSort ssLtDesc ph.seed_sets else stableSort ssLtAsc ph.seed_sets)
        s2

/-- The phase loop of `execute_phases` (`executor.rs:42-49`). -/
def phasesLoop (cfg : Cfg) : List SeedPhase → ExecSt → Except String Unit × ExecSt
  | [], s => (.ok (), s)
  | ph :: t, s =>
    match execute_phase cfg ph s with
    | (.error e, s') => (.error e, s')
    | (.ok _, s') => phasesLoop cfg t s'

/-- Embedding of `execute` (`executor.rs:32-49`): create the tracking table,
then run the phases sorted by `order` (stable, ascending). -/
def execute (cfg : Cfg) (plan : SeedPlan) (s : ExecSt) : Except String Unit × ExecSt :=
  match ensure_tracking_table cfg.tracking_table s with
  | (.error e, s') => (.error e, s')
  | (.ok _, s') => phasesLoop cfg (stableSort phLtAsc plan.phases) s'

/-- The durable database state (tables, tracking table, catalog objects):
what "final database state" means in the idempotency claims. -/
def dbView (s : ExecSt) :
    List (String × List DbRow) × List (String × List String) × List (String × String) :=
  (s.tables, s.tracking, s.objects)

/-- Decidable equality for `Except` results (used by concrete witnesses). -/
instance {ε α : Type} [DecidableEq ε] [DecidableEq α] : DecidableEq (Except ε α) := fun a b =>
  match a, b with
  | .ok x, .ok y => if h : x = y then .isTrue (by rw [h]) else .isFalse (by simp [h])
  | .error x, .error y => if h : x = y then .isTrue (by rw [h]) else .isFalse (by simp [h])
  | .ok _, .error _ => .isFalse (by simp)
  | .error _, .ok _ => .isFalse (by simp)

/-- Error-ness of a result (used to state failure-path claims without
binding the message). -/
def isErr {ε α : Type} : Except ε α → Bool
  | .ok _ => false
  | .error _ => true

/-! ## General lemmas about the helpers -/

theorem strMkData (s : String) : String.mk s.data = s := rfl

theorem stripPrefixL_append (p r : List Char) : stripPrefixL p (p ++ r) = some r := by
  induction p with
  | nil => simp [stripPrefixL]
  | cons c t ih => simp [stripPrefixL, ih]

theorem splitFirstDot_append (n c : List Char) (h : '.' ∉ n) :
    splitFirstDot (n ++ '.' :: c) = some (n, c) := by
  induction n with
  | nil => simp [splitFirstDot]
  | cons x t ih =>
    have hx : x ≠ '.' := by intro hx; exact h (hx ▸ List.mem_cons_self x t)
    have ht : '.' ∉ t := fun hm => h (List.mem_cons_of_mem x hm)
    simp [splitFirstDot, hx, ih ht]

theorem splitFirstDot_none (l : List Char) (h : '.' ∉ l) : splitFirstDot l = none := by
  induction l with
  | nil => rfl
  | cons x t ih =>
    have hx : x ≠ '.' := by intro hx; exact h (hx ▸ List.mem_cons_self x t)
    have ht : '.' ∉ t := fun hm => h (List.mem_cons_of_mem x hm)
    simp [splitFirstDot, hx, ih ht]

/-! ## Claim theorems -/

/-- C7: `resolve_value` maps every spec scalar to a string as follows: a
string with no recognized prefix maps to itself; `@ref:NAME.COL` maps to the
stored value for column `COL` of reference `NAME`, and errors if `NAME` is
absent from the reference store or `COL` is missing from its record;
`$env:VAR` maps to the value of environment variable `VAR` and errors if
`VAR` is unset; a number maps to its decimal rendering (whose value is the
number, by `digitsVal_natDecimal`); a boolean maps to `true`/`false`; null
maps to the empty string. -/
theorem c7_resolve_value (refs : List (String × List (String × String))) (env : List (String × String)) :
    (∀ s : String, stripPrefixL "@ref:".data s.data = none →
      stripPrefixL "$env:".data s.data = none →
      resolve_value refs env (.str s) = .ok s) ∧
    (∀ n c v : String, ('.' ∉ n.data) → ∀ m, alGet n refs = some m → alGet c m = some v →
      resolve_value refs env (.str ("@ref:" ++ n ++ "." ++ c)) = .ok v) ∧
    (∀ n c : String, ('.' ∉ n.data) → alGet n refs = none →
      resolve_value refs env (.str ("@ref:" ++ n ++ "." ++ c)) =
        .error ("reference '" ++ n ++ "' not found (ensure it appears before use)")) ∧
    (∀ n c : String, ('.' ∉ n.data) → ∀ m, alGet n refs = some m → alGet c m = none →
      resolve_value refs env (.str ("@ref:" ++ n ++ "." ++ c)) =
        .error ("column '" ++ c ++ "' not found in reference '" ++ n ++ "'")) ∧
    (∀ v x : String, alGet v env = some x →
      resolve_value refs env (.str ("$env:" ++ v)) = .ok x) ∧
    (∀ v : String, alGet v env = none →
      resolve_value refs env (.str ("$env:" ++ v)) =
        .error ("environment variable '" ++ v ++ "' not set")) ∧
    (∀ z : ℤ, resolve_value refs env (.num z) = .ok (intDecimalStr z)) ∧
    (∀ nn : ℕ, digitsVal (natDecimal nn) = nn) ∧
    (resolve_value refs env (.bool true) = .ok "true" ∧
      resolve_value refs env (.bool false) = .ok "false") ∧
    resolve_value refs env .null = .ok "" := by
  have hdata : ∀ n c : String,
      ("@ref:" ++ n ++ "." ++ c).data = "@ref:".data ++ (n.data ++ '.' :: c.data) := by
    intro n c; simp [String.data_append]
  have henv : ∀ v : String, ("$env:" ++ v).data = '$' :: ("env:".data ++ v.data) := by
    intro v
    simp [String.data_append]
  have henv1 : ∀ v : String,
      stripPrefixL "@ref:".data (("$env:" ++ v).data) = none := by
    intro v; rw [henv]; simp [stripPrefixL]
  have henv2 : ∀ v : String,
      stripPrefixL "$env:".data (("$env:" ++ v).data) = some v.data := by
    intro v; rw [henv]
    have h5 : ("$env:".data : List Char) = '$' :: "env:".data := rfl
    rw [h5]
    simp [stripPrefixL, stripPrefixL_append]
  refine ⟨?_, ?_, ?_, ?_, ?_, ?_, ?_, ?_, ⟨rfl, rfl⟩, rfl⟩
  · intro s h1 h2
    simp [resolve_value, h1, h2]
  · intro n c v hdot m hm hv
    simp only [resolve_value, hdata, stripPrefixL_append]
    simp [resolve_reference, splitFirstDot_append n.data c.data hdot, strMkData, hm, hv]
  · intro n c hdot hn
    simp only [resolve_value, hdata, stripPrefixL_append]
    simp [resolve_reference, splitFirstDot_append n.data c.data hdot, strMkData, hn]
  · intro n c hdot m hm hc
    simp only [resolve_value, hdata, stripPrefixL_append]
    simp [resolve_reference, splitFirstDot_append n.data c.data hdot, strMkData, hm, hc]
  · intro v x hv
    simp only [resolve_value, henv1, henv2]
    simp [strMkData, hv]
  · intro v hv
    simp only [resolve_value, henv1, henv2]
    simp [strMkData, hv]
  · intro z; rfl
  · exact digitsVal_natDecimal

/-- Witness for `c7_resolve_value` at a concrete reference store and
environment. -/
theorem c7_resolve_value_witness :
    resolve_value [("dept", [("id", "7")])] [("HOME", "/root")] (.str "@ref:dept.id") =
      .ok "7" ∧
    resolve_value [("dept", [("id", "7")])] [("HOME", "/root")] (.str "$env:MISSING") =
      .error "environment variable 'MISSING' not set" ∧
    resolve_value [("dept", [("id", "7")])] [("HOME", "/root")] (.str "plain") = .ok "plain" := by
  have h := c7_resolve_value [("dept", [("id", "7")])] [("HOME", "/root")]
  refine ⟨?_, ?_, ?_⟩
  · exact h.2.1 "dept" "id" "7" (by decide) [("id", "7")] rfl rfl
  · exact h.2.2.2.2.2.1 "MISSING" rfl
  · exact h.1 "plain" rfl rfl

/-! ## C1 — the identifier sanitizer -/

/-- Idempotence of the sanitizer (`sanitize_identifier ∘ sanitize_identifier
= sanitize_identifier`). -/
theorem sanitize_idem (name : String) :
    sanitize_identifier (sanitize_identifier name) = sanitize_identifier name := by
  simp only [sanitize_identifier, List.filter_filter]
  congr 1
  apply List.filter_congr
  intro c _
  cases h : (rustIsAlphanumeric c || c == '_') <;> simp [h]


/-- On ASCII code points, Rust `char::is_alphanumeric` coincides with the
ASCII class `[A-Za-z0-9]`. -/
theorem rust_ascii {c : Char} (h : c.toNat < 128) : rustIsAlphanumeric c = c.isAlphanum := by
  unfold rustIsAlphanumeric
  have h1 : (c.toNat == 0xAA) = false := by simp; omega
  have h2 : (c.toNat == 0xB5) = false := by simp; omega
  have h3 : (c.toNat == 0xB9) = false := by simp; omega
  have h4 : (c.toNat == 0xBA) = false := by simp; omega
  have h5 : (0xB2 ≤ c.toNat && c.toNat ≤ 0xB3) = false := by
    simp only [Bool.and_eq_false_iff]; left; simp; omega
  have h6 : (0xBC ≤ c.toNat && c.toNat ≤ 0xBE) = false := by
    simp only [Bool.and_eq_false_iff]; left; simp; omega
  have h7 : (0xC0 ≤ c.toNat && c.toNat ≤ 0x24F && !(c.toNat == 0xD7) && !(c.toNat == 0xF7)) =
      false := by
    simp only [Bool.and_eq_false_iff]; left; left; left; simp; omega
  simp [h1, h2, h3, h4, h5, h6, h7]


/-- The ASCII filter class of the source (`is_alphanumeric || '_'` restricted
to ASCII) is the regex class `[A-Za-z0-9_]`. -/
theorem ascii_ident_iff (c : Char) : (c.isAlphanum || c == '_') = isAsciiIdentChar c := by
  simp [Char.isAlphanum, Char.isAlpha, Char.isUpper, Char.isLower, Char.isDigit,
    isAsciiIdentChar]
  tauto


/-- C1 (amended): `sanitize_identifier(name)` keeps exactly the characters of
`name` that are Unicode-alphanumeric (Rust `char::is_alphanumeric`) or `_`,
in order and with no case change; it is idempotent; when `name` is ASCII the
result is exactly the `[A-Za-z0-9_]` filter and matches `[A-Za-z0-9_]*`; and
the SQL built by the driver is invariant under pre-sanitizing its
identifiers (every identifier slot already passes through
`sanitize_identifier`).  The original claim restricted the kept characters
to ASCII `[A-Za-z0-9_]`, which `c1_counterexample` refutes. -/
theorem c1_sanitize_identifier (name : String) :
    (sanitize_identifier name).data.Sublist name.data ∧
    (∀ c ∈ (sanitize_identifier name).data, rustIsAlphanumeric c = true ∨ c = '_') ∧
    sanitize_identifier (sanitize_identifier name) = sanitize_identifier name ∧
    ((∀ c ∈ name.data, c.toNat < 128) →
      (sanitize_identifier name).data = name.data.filter isAsciiIdentChar ∧
        (sanitize_identifier name).data.all isAsciiIdentChar = true) ∧
    (∀ columns : List String,
      sqliteInsertSql name columns =
        sqliteInsertSql (sanitize_identifier name) (columns.map sanitize_identifier)) := by
  refine ⟨List.filter_sublist _, ?_, sanitize_idem name, ?_, ?_⟩
  · intro c hc
    simp only [sanitize_identifier, List.mem_filter] at hc
    rcases Bool.or_eq_true_iff.mp hc.2 with h | h
    · exact Or.inl h
    · exact Or.inr (by simpa using h)
  · intro hascii
    have hfe : (sanitize_identifier name).data = name.data.filter isAsciiIdentChar := by
      simp only [sanitize_identifier]
      apply List.filter_congr
      intro c hc
      rw [rust_ascii (hascii c hc), ascii_ident_iff]
    refine ⟨hfe, ?_⟩
    rw [hfe, List.all_eq_true]
    intro c hc
    exact (List.mem_filter.mp hc).2
  · intro columns
    have hmap : List.map ((fun c => "\"" ++ sanitize_identifier c ++ "\"") ∘ sanitize_identifier)
        columns = List.map (fun c => "\"" ++ sanitize_identifier c ++ "\"") columns := by
      apply List.map_congr_left
      intro c _
      simp [Function.comp, sanitize_idem]
    simp only [sqliteInsertSql, sanitize_idem, List.map_map, List.length_map, hmap]


/-- C1 counterexample: the accented letter `é` (U+00E9) is alphanumeric for
Rust's `char::is_alphanumeric`, so `sanitize_identifier "é"` keeps it; the
output does not match `[A-Za-z0-9_]*` and differs from the ASCII filter the
claim describes. -/
theorem c1_counterexample :
    sanitize_identifier "é" = "é" ∧
    (sanitize_identifier "é").data.all isAsciiIdentChar = false ∧
    sanitize_identifier "é" ≠ String.mk ("é".data.filter isAsciiIdentChar) := by
  decide

/-- Witness for `c1_sanitize_identifier` at a concrete identifier. -/
theorem c1_sanitize_identifier_witness :
    (sanitize_identifier "users;drop").data = "users;drop".data.filter isAsciiIdentChar ∧
    (sanitize_identifier "users;drop").data.all isAsciiIdentChar = true ∧
    sqliteInsertSql "users;drop" ["na me"] =
      sqliteInsertSql (sanitize_identifier "users;drop") (["na me"].map sanitize_identifier) := by
  have h := c1_sanitize_identifier "users;drop"
  have ha := h.2.2.2.1 (by decide)
  exact ⟨ha.1, ha.2, h.2.2.2.2 ["na me"]⟩

/-! ## C3 — the per-row parallel arrays -/

/-- C3 (amended): for every row, on success `buildArrays` produces `columns`
listing the row's non-`_ref` keys in the row map's iteration order (the
`HashMap` order, which need not be the declaration order of the spec file —
see `c3_counterexample`), `values` parallel to it with each entry the
resolved value of its column, and `unique_columns`/`unique_values` the
parallel sub-arrays of the keys listed in `unique_key`; these exact arrays
are what `row_exists` and `insert_row` receive. -/
theorem c3_row_arrays (cfg : Cfg) (ts : TableSeed) (s : ExecSt) :
    (∀ (row : RowMap) (a : RowArrays),
      buildArrays s.refs cfg.env ts.unique_key row = .ok a →
      a.columns = (row.filter (fun p => p.1 != "_ref")).map Prod.fst ∧
      List.Forall₂ (fun (p : String × Value) (cv : String × String) =>
        cv.1 = p.1 ∧ resolve_value s.refs cfg.env p.2 = .ok cv.2)
        (row.filter (fun p => p.1 != "_ref")) (a.columns.zip a.vals) ∧
      a.vals.length = a.columns.length ∧
      a.ucols.zip a.uvals = (a.columns.zip a.vals).filter
        (fun p => ts.unique_key.contains p.1) ∧
      a.ucols = a.columns.filter (fun k => ts.unique_key.contains k)) ∧
    (∀ (row : RowMap) (a : RowArrays),
      buildArrays s.refs cfg.env ts.unique_key row = .ok a →
      ts.unique_key.isEmpty = false → a.ucols.isEmpty = false →
      rowExistsB s ts.table a.ucols a.uvals = false →
      cfg.faults.insertFail ts.table a.columns a.vals = none →
      (processRow cfg ts row s).1 = .ok () ∧
      (processRow cfg ts row s).2.tr =
        s.tr ++ [.rowExists ts.table a.ucols a.uvals, .insert ts.table a.columns a.vals]) := by
  constructor
  · intro row
    induction row with
    | nil =>
      intro a ha
      simp only [buildArrays] at ha
      cases ha
      simp [List.Forall₂]
    | cons p t ih =>
      intro a ha
      obtain ⟨k, v⟩ := p
      by_cases hk : k = "_ref"
      · subst hk
        simp only [buildArrays, if_pos rfl] at ha
        have h := ih a ha
        simpa using h
      · simp only [buildArrays, if_neg hk] at ha
        cases hr : resolve_value s.refs cfg.env v with
        | error e => rw [hr] at ha; exact absurd ha (by simp)
        | ok r =>
          rw [hr] at ha
          cases hb : buildArrays s.refs cfg.env ts.unique_key t with
          | error e => rw [hb] at ha; exact absurd ha (by simp)
          | ok a' =>
            rw [hb] at ha
            cases ha
            obtain ⟨h1, h2, h3, h4, h5⟩ := ih a' hb
            have hkb : (k != "_ref") = true := by simp [hk]
            refine ⟨?_, ?_, ?_, ?_, ?_⟩
            · simp [List.filter_cons, hkb, h1]
            · simp only [List.filter_cons, hkb, if_pos]
              simp only [List.zip_cons_cons]
              exact List.Forall₂.cons ⟨rfl, hr⟩ h2
            · simp [h3]
            · by_cases hu : k ∈ ts.unique_key <;>
                simp [List.zip_cons_cons, List.filter_cons, hu, h4]
            · by_cases hu : k ∈ ts.unique_key <;> simp [List.filter_cons, hu, h5]
  · intro row a ha hne huc hex hif
    simp only [processRow, ha, hne, Bool.false_eq_true, if_false, row_exists, huc,
      hex, insertAndCapture, insert_row, hif]
    cases hrn : rowRefName row <;> simp [hrn]

/-- C3 counterexample: the row map `{a: "1", b: "2"}` iterated by the
`HashMap` in the order `b, a` — a legal iteration order, since `HashMap`
iteration order is arbitrary — yields `columns = [b, a]`, not the
declaration order `[a, b]` the claim asserts. -/
theorem c3_counterexample :
    List.Perm ([("b", Value.str "2"), ("a", Value.str "1")] : RowMap)
      [("a", Value.str "1"), ("b", Value.str "2")] ∧
    buildArrays [] [] [] [("b", Value.str "2"), ("a", Value.str "1")] =
      .ok ⟨["b", "a"], ["2", "1"], [], []⟩ ∧
    ["b", "a"] ≠ (([("a", Value.str "1"), ("b", Value.str "2")] : RowMap).map Prod.fst) := by
  decide

/-! ## Witness fixtures (shared concrete inputs for the witnesses below) -/

/-- Oracles that never inject a failure. -/
def wNoFaults : Faults := ⟨fun _ _ _ => none, fun _ => none, none⟩

/-- A concrete configuration (no reset). -/
def wCfg : Cfg := ⟨wNoFaults, [("DEPT", "FromEnv")], "initium_seed", false⟩

/-- The empty starting state. -/
def wSt : ExecSt := ⟨[], [], [], none, [], []⟩

/-- A concrete table seed with a `unique_key`. -/
def wTs : TableSeed := ⟨"departments", 0, ["name"], none, [[("name", Value.str "Engineering")]]⟩

/-- Witness for `c3_row_arrays` at a concrete one-column row. -/
theorem c3_row_arrays_witness :
    (RowArrays.mk ["name"] ["Engineering"] ["name"] ["Engineering"]).columns =
      (([("name", Value.str "Engineering")] : RowMap).filter
        (fun p => p.1 != "_ref")).map Prod.fst ∧
    (processRow wCfg wTs [("name", Value.str "Engineering")] wSt).1 = .ok () ∧
    (processRow wCfg wTs [("name", Value.str "Engineering")] wSt).2.tr =
      wSt.tr ++ [.rowExists "departments" ["name"] ["Engineering"],
        .insert "departments" ["name"] ["Engineering"]] := by
  have h := c3_row_arrays wCfg wTs wSt
  have h1 := (h.1 [("name", Value.str "Engineering")]
    ⟨["name"], ["Engineering"], ["name"], ["Engineering"]⟩ (by decide)).1
  have h2 := h.2 [("name", Value.str "Engineering")]
    ⟨["name"], ["Engineering"], ["name"], ["Engineering"]⟩
    (by decide) (by decide) (by decide) (by decide) (by decide)
  exact ⟨h1, h2.1, h2.2⟩

/-! ## C6 — reset-mode delete order (stable sort) -/

/-- Membership through `stableInsert`. -/
theorem stableInsert_mem {α : Type} (lt : α → α → Bool) (x : α) :
    ∀ (l : List α) (z : α), z ∈ stableInsert lt x l ↔ z = x ∨ z ∈ l := by
  intro l z
  induction l with
  | nil => simp [stableInsert]
  | cons y t ih =>
    by_cases h : lt x y
    · simp [stableInsert, h]
    · simp [stableInsert, h, ih]
      tauto

/-- Membership through the insertion fold. -/
theorem stableSortAux_mem {α : Type} (lt : α → α → Bool) :
    ∀ (l acc : List α) (z : α),
      z ∈ l.foldl (fun acc x => stableInsert lt x acc) acc ↔ z ∈ acc ∨ z ∈ l := by
  intro l
  induction l with
  | nil => simp
  | cons x t ih =>
    intro acc z
    simp only [List.foldl_cons, ih, stableInsert_mem, List.mem_cons]
    tauto

/-- `stableSort` permutes its input as far as membership goes. -/
theorem stableSort_mem {α : Type} (lt : α → α → Bool) (l : List α) (z : α) :
    z ∈ stableSort lt l ↔ z ∈ l := by
  simp [stableSort, stableSortAux_mem]

/-- Inserting into a descending-sorted list keeps it descending-sorted. -/
theorem stableInsert_pairwise_desc (x : TableSeed) :
    ∀ l : List TableSeed, l.Pairwise (fun a b => b.order ≤ a.order) →
      (stableInsert tsLtDesc x l).Pairwise (fun a b => b.order ≤ a.order) := by
  intro l
  induction l with
  | nil => intro _; simp [stableInsert]
  | cons y t ih =>
    intro hp
    rw [List.pairwise_cons] at hp
    by_cases h : tsLtDesc x y
    · simp only [stableInsert, h, if_pos]
      rw [List.pairwise_cons]
      constructor
      · intro z hz
        rcases List.mem_cons.mp hz with rfl | hz
        · exact le_of_lt (by simpa [tsLtDesc] using h)
        · exact le_trans (hp.1 z hz) (le_of_lt (by simpa [tsLtDesc] using h))
      · exact List.pairwise_cons.mpr hp
    · simp only [stableInsert, h, if_neg, Bool.false_eq_true, not_false_iff]
      rw [List.pairwise_cons]
      constructor
      · intro z hz
        rcases (stableInsert_mem tsLtDesc x t z).mp hz with rfl | hz
        · simpa [tsLtDesc] using h
        · exact hp.1 z hz
      · exact ih hp.2

/-- The descending stable sort is sorted by non-increasing `order`. -/
theorem stableSort_desc_sorted :
    ∀ (l acc : List TableSeed), acc.Pairwise (fun a b => b.order ≤ a.order) →
      (l.foldl (fun acc x => stableInsert tsLtDesc x acc) acc).Pairwise
        (fun a b => b.order ≤ a.order) := by
  intro l
  induction l with
  | nil => intro acc h; simpa using h
  | cons x t ih =>
    intro acc h
    exact ih _ (stableInsert_pairwise_desc x acc h)

/-- Stability of the insertion step: inserting `x` into a descending-sorted
list places it after every element with the same `order`. -/
theorem filter_stableInsert_desc (k : ℤ) (x : TableSeed) :
    ∀ l : List TableSeed, l.Pairwise (fun a b => b.order ≤ a.order) →
      (stableInsert tsLtDesc x l).filter (fun t => t.order == k) =
        if x.order == k then l.filter (fun t => t.order == k) ++ [x]
        else l.filter (fun t => t.order == k) := by
  intro l
  induction l with
  | nil =>
    intro _
    by_cases hx : x.order = k
    · simp [stableInsert, List.filter_cons, hx]
    · have hxb : (x.order == k) = false := by simp [hx]
      simp [stableInsert, List.filter_cons, hxb]
  | cons y t ih =>
    intro hp
    rw [List.pairwise_cons] at hp
    by_cases h : tsLtDesc x y
    · have hyx : y.order < x.order := by simpa [tsLtDesc] using h
      simp only [stableInsert, h, if_pos]
      by_cases hx : x.order = k
      · have hy : (y.order == k) = false := by simp; omega
        have ht : t.filter (fun t => t.order == k) = [] := by
          rw [List.filter_eq_nil_iff]
          intro z hz
          have := hp.1 z hz
          simp
          omega
        simp [List.filter_cons, hx, hy, ht]
      · have hxb : (x.order == k) = false := by simp [hx]
        simp [List.filter_cons, hxb, hx]
    · simp only [stableInsert, h, if_neg, Bool.false_eq_true, not_false_iff]
      by_cases hy : y.order = k <;>
        by_cases hx : x.order = k <;>
          simp [List.filter_cons, hy, hx, ih hp.2]

/-- Stability of the insertion fold, with an accumulator. -/
theorem stableSort_desc_filter_aux (k : ℤ) :
    ∀ (l acc : List TableSeed), acc.Pairwise (fun a b => b.order ≤ a.order) →
      (l.foldl (fun acc x => stableInsert tsLtDesc x acc) acc).filter
          (fun t => t.order == k) =
        acc.filter (fun t => t.order == k) ++ l.filter (fun t => t.order == k) := by
  intro l
  induction l with
  | nil => intro acc _; simp
  | cons x t ih =>
    intro acc h
    simp only [List.foldl_cons]
    rw [ih _ (stableInsert_pairwise_desc x acc h), filter_stableInsert_desc k x acc h]
    by_cases hx : x.order = k
    · simp [List.filter_cons, hx]
    · have hxb : (x.order == k) = false := by simp [hx]
      simp [List.filter_cons, hxb]

/-- Stability of the descending stable sort: the elements with any fixed
`order` appear in their original declaration order. -/
theorem stableSort_desc_filter (k : ℤ) (l : List TableSeed) :
    (stableSort tsLtDesc l).filter (fun t => t.order == k) =
      l.filter (fun t => t.order == k) := by
  simpa [stableSort] using stableSort_desc_filter_aux k l [] (by simp)

/-- The reset delete loop, when no delete fails: issues exactly one
`delete_rows` per table in list order and touches nothing else. -/
theorem resetDeletes_ok (cfg : Cfg) :
    ∀ (l : List TableSeed) (s : ExecSt), (∀ t ∈ l, cfg.faults.deleteFail t.table = none) →
      (resetDeletes cfg l s).1 = .ok () ∧
      (resetDeletes cfg l s).2.tr = s.tr ++ l.map (fun t => Ev.delete t.table) ∧
      (resetDeletes cfg l s).2.tracking = s.tracking ∧
      (resetDeletes cfg l s).2.objects = s.objects ∧
      (resetDeletes cfg l s).2.snap = s.snap ∧
      (resetDeletes cfg l s).2.refs = s.refs := by
  intro l
  induction l with
  | nil => intro s _; simp [resetDeletes]
  | cons ts t ih =>
    intro s h
    have hts := h ts (List.mem_cons_self ts t)
    have hrest : ∀ t' ∈ t, cfg.faults.deleteFail t'.table = none :=
      fun t' ht' => h t' (List.mem_cons_of_mem ts ht')
    have ih' := ih
      { s with
        tables := alSet (sanitize_identifier ts.table) [] s.tables,
        tr := s.tr ++ [Ev.delete ts.table] } hrest
    obtain ⟨h1, h2, h3, h4, h5, h6⟩ := ih'
    simp only [resetDeletes, delete_rows, hts]
    simp [h1, h2, h3, h4, h5, h6]

/-- C6 (amended): in reset mode, a seed set's tables are deleted in
descending order of their `order` field, and two tables that share the same
`order` value are deleted in **declaration order** (the stable sort keeps
ties in source order — the earlier-declared table is deleted first, not
last); the `delete_rows` calls are issued exactly in that sequence, followed
by `remove_seed_mark`.  The original claim's reverse-declaration tie-break
is refuted by `c6_counterexample`. -/
theorem c6_reset_delete_order (cfg : Cfg) (ss : SeedSet) (s : ExecSt)
    (hreset : cfg.reset = true)
    (hok : ∀ t ∈ stableSort tsLtDesc ss.tables, cfg.faults.deleteFail t.table = none) :
    (stableSort tsLtDesc ss.tables).Pairwise (fun a b => b.order ≤ a.order) ∧
    (∀ k : ℤ, (stableSort tsLtDesc ss.tables).filter (fun t => t.order == k) =
      ss.tables.filter (fun t => t.order == k)) ∧
    (∀ t : TableSeed, t ∈ stableSort tsLtDesc ss.tables ↔ t ∈ ss.tables) ∧
    (resetPart cfg ss s).1 = .ok () ∧
    (resetPart cfg ss s).2.tr = s.tr ++
      ((stableSort tsLtDesc ss.tables).map (fun t => Ev.delete t.table) ++
        [.removeMark cfg.tracking_table ss.name]) := by
  obtain ⟨h1, h2, h3, h4, h5, h6⟩ := resetDeletes_ok cfg (stableSort tsLtDesc ss.tables) s hok
  rcases hres : resetDeletes cfg (stableSort tsLtDesc ss.tables) s with ⟨r1, s2⟩
  rw [hres] at h1 h2
  simp only [] at h1 h2
  subst h1
  refine ⟨?_, fun k => stableSort_desc_filter k ss.tables,
    fun t => stableSort_mem _ _ _, ?_, ?_⟩
  · simpa [stableSort] using stableSort_desc_sorted ss.tables [] (by simp)
  · simp [resetPart, hreset, hres, remove_seed_mark]
  · simp [resetPart, hreset, hres, remove_seed_mark, h2]

/-- A reset-mode configuration for concrete runs. -/
def wCfgReset : Cfg := ⟨wNoFaults, [], "initium_seed", true⟩

/-- C6 counterexample: tables `A` and `B` share `order = 1` and are declared
in that order; reset mode deletes `A` first (declaration order), not `B`
first as the claim's reverse-declaration tie-break asserts. -/
theorem c6_counterexample :
    (resetPart wCfgReset ⟨"s", 0, [⟨"A", 1, [], none, []⟩, ⟨"B", 1, [], none, []⟩]⟩ wSt).2.tr =
      [.delete "A", .delete "B", .removeMark "initium_seed" "s"] ∧
    [Ev.delete "A", Ev.delete "B"] ≠ [Ev.delete "B", Ev.delete "A"] := by
  decide

/-- Witness for `c6_reset_delete_order` at a two-table seed set. -/
theorem c6_reset_delete_order_witness :
    (resetPart wCfgReset ⟨"s", 0, [⟨"A", 1, [], none, []⟩, ⟨"B", 2, [], none, []⟩]⟩ wSt).1 =
      .ok () ∧
    (resetPart wCfgReset ⟨"s", 0, [⟨"A", 1, [], none, []⟩, ⟨"B", 2, [], none, []⟩]⟩ wSt).2.tr =
      wSt.tr ++ ((stableSort tsLtDesc [⟨"A", 1, [], none, []⟩, ⟨"B", 2, [], none, []⟩]).map
        (fun t => Ev.delete t.table) ++ [.removeMark "initium_seed" "s"]) := by
  have h := c6_reset_delete_order wCfgReset
    ⟨"s", 0, [⟨"A", 1, [], none, []⟩, ⟨"B", 2, [], none, []⟩]⟩ wSt rfl (by decide)
  exact ⟨h.2.2.2.1, h.2.2.2.2⟩

/-! ## C10 — reset cleanup is not transactional -/

/-- The reset delete loop when the delete of `tk` fails after the deletes of
the prefix `A` succeeded: the error is the raw driver message, the tracking
table is untouched, the earlier deletions remain applied, and only delete
events were emitted. -/
theorem resetDeletes_fail (cfg : Cfg) (e : String) (tk : TableSeed) (B : List TableSeed)
    (hk : cfg.faults.deleteFail tk.table = some e) :
    ∀ (A : List TableSeed) (s : ExecSt),
      (∀ t ∈ A, cfg.faults.deleteFail t.table = none) →
      (resetDeletes cfg (A ++ tk :: B) s).1 =
        .error ("deleting rows from '" ++ tk.table ++ "': " ++ e) ∧
      (resetDeletes cfg (A ++ tk :: B) s).2.tracking = s.tracking ∧
      (∀ t ∈ A, tableRows (resetDeletes cfg (A ++ tk :: B) s).2 t.table = []) ∧
      (∀ tb, tableRows s tb = [] → tableRows (resetDeletes cfg (A ++ tk :: B) s).2 tb = []) ∧
      (resetDeletes cfg (A ++ tk :: B) s).2.snap = s.snap ∧
      (∃ Δ, (resetDeletes cfg (A ++ tk :: B) s).2.tr = s.tr ++ Δ ∧
        ∀ ev ∈ Δ, ∃ tb, ev = Ev.delete tb) := by
  intro A
  induction A with
  | nil =>
    intro s _
    refine ⟨?_, ?_, ?_, ?_, ?_, ⟨[], ?_, ?_⟩⟩ <;>
      simp [resetDeletes, delete_rows, hk]
  | cons a A ih =>
    intro s h
    have ha := h a (List.mem_cons_self a A)
    have hrest : ∀ t ∈ A, cfg.faults.deleteFail t.table = none :=
      fun t ht => h t (List.mem_cons_of_mem a ht)
    have ih' := ih
      { s with
        tables := alSet (sanitize_identifier a.table) [] s.tables,
        tr := s.tr ++ [Ev.delete a.table] } hrest
    obtain ⟨h1, h2, h3, h4, h5, h6⟩ := ih'
    have hstep : ∀ tb, tableRows s tb = [] →
        tableRows
          { s with
            tables := alSet (sanitize_identifier a.table) [] s.tables,
            tr := s.tr ++ [Ev.delete a.table] } tb = [] := by
      intro tb htb
      by_cases hkk : sanitize_identifier a.table = sanitize_identifier tb
      · simp only [tableRows]
        rw [hkk, alGet_alSet_self]
        rfl
      · simp only [tableRows]
        rw [alGet_alSet_ne _ _ _ hkk]
        exact htb
    simp only [List.cons_append, resetDeletes, delete_rows, ha, List.append_eq]
    refine ⟨h1, h2, ?_, ?_, h5, ?_⟩
    · intro t ht
      rcases List.mem_cons.mp ht with rfl | ht
      · apply h4
        simp [tableRows, alGet_alSet_self]
      · exact h3 t ht
    · intro tb htb
      exact h4 tb (hstep tb htb)
    · obtain ⟨Δ, hΔ, hΔ2⟩ := h6
      refine ⟨Ev.delete a.table :: Δ, ?_, ?_⟩
      · rw [hΔ]
        simp
      · intro ev hev
        rcases List.mem_cons.mp hev with rfl | hev
        · exact ⟨a.table, rfl⟩
        · exact hΔ2 ev hev

/-- C10: reset-mode cleanup is not transactional.  The `delete_rows` calls
and `remove_seed_mark` run before `begin_transaction`: when the delete of
table `tk` fails after the tables `A` were already deleted, the run aborts
with the driver's error, no `BEGIN`/`COMMIT`/`ROLLBACK` was ever issued (so
the deletions of `A` remain durable), and the tracking table — including the
seed set's possibly still-present mark — is unchanged. -/
theorem c10_reset_cleanup_not_transactional (cfg : Cfg) (ss : SeedSet) (s : ExecSt) (A : List TableSeed) (tk : TableSeed)
    (B : List TableSeed) (e : String)
    (hreset : cfg.reset = true)
    (hsort : stableSort tsLtDesc ss.tables = A ++ tk :: B)
    (hA : ∀ t ∈ A, cfg.faults.deleteFail t.table = none)
    (hk : cfg.faults.deleteFail tk.table = some e) :
    (execute_seed_set cfg ss s).1 =
      .error ("deleting rows from '" ++ tk.table ++ "': " ++ e) ∧
    (execute_seed_set cfg ss s).2.tracking = s.tracking ∧
    (∀ t ∈ A, tableRows (execute_seed_set cfg ss s).2 t.table = []) ∧
    (∃ Δ, (execute_seed_set cfg ss s).2.tr = s.tr ++ Δ ∧
      Ev.begin ∉ Δ ∧ Ev.commit ∉ Δ ∧ Ev.rollback ∉ Δ) := by
  obtain ⟨h1, h2, h3, _, _, h6⟩ := resetDeletes_fail cfg e tk B hk A s hA
  rcases hr : resetDeletes cfg (A ++ tk :: B) s with ⟨r1, s2⟩
  rw [hr] at h1 h2 h3 h6
  simp only [] at h1 h2 h3 h6
  subst h1
  have hres : resetDeletes cfg (stableSort tsLtDesc ss.tables) s = (.error
    ("deleting rows from '" ++ tk.table ++ "': " ++ e), s2) := by rw [hsort, hr]
  have hrun : execute_seed_set cfg ss s =
      (.error ("deleting rows from '" ++ tk.table ++ "': " ++ e), s2) := by
    simp [execute_seed_set, resetPart, hreset, hres]
  rw [hrun]
  obtain ⟨Δ, hΔ, hΔ2⟩ := h6
  refine ⟨rfl, h2, h3, Δ, hΔ, ?_, ?_, ?_⟩ <;>
    · intro hmem
      obtain ⟨tb, hev⟩ := hΔ2 _ hmem
      simp at hev

/-- Failure oracles for the C10 witness: deleting table `B` fails. -/
def wFaultsDelB : Faults :=
  ⟨fun _ _ _ => none, fun t => if t = "B" then some "disk full" else none, none⟩

/-- Witness for `c10_reset_cleanup_not_transactional`: tables `A` (order 2)
and `B` (order 1) are deleted in that order; the delete of `B` fails, `A`
stays deleted, the pre-existing mark survives, and no transaction event was
issued. -/
theorem c10_reset_cleanup_not_transactional_witness :
    (execute_seed_set ⟨wFaultsDelB, [], "initium_seed", true⟩
      ⟨"s", 0, [⟨"A", 2, [], none, []⟩, ⟨"B", 1, [], none, []⟩]⟩
      { wSt with tracking := [("initium_seed", ["s"])] }).1 =
      .error ("deleting rows from '" ++ "B" ++ "': " ++ "disk full") ∧
    (execute_seed_set ⟨wFaultsDelB, [], "initium_seed", true⟩
      ⟨"s", 0, [⟨"A", 2, [], none, []⟩, ⟨"B", 1, [], none, []⟩]⟩
      { wSt with tracking := [("initium_seed", ["s"])] }).2.tracking =
      ({ wSt with tracking := [("initium_seed", ["s"])] } : ExecSt).tracking := by
  have h := c10_reset_cleanup_not_transactional ⟨wFaultsDelB, [], "initium_seed", true⟩
    ⟨"s", 0, [⟨"A", 2, [], none, []⟩, ⟨"B", 1, [], none, []⟩]⟩
    { wSt with tracking := [("initium_seed", ["s"])] }
    [⟨"A", 2, [], none, []⟩] ⟨"B", 1, [], none, []⟩ [] "disk full"
    rfl (by decide) (by decide) (by decide)
  exact ⟨h.1, h.2.1⟩

/-! ## C2 and C4 — transactional failure semantics of a seed set -/

/-- The insert-and-capture tail touches only `tables`, `refs` and the trace. -/
theorem insertAndCapture_pres (cfg : Cfg) (ts : TableSeed) (row : RowMap) (a : RowArrays)
    (s : ExecSt) :
    (insertAndCapture cfg ts row a s).2.tracking = s.tracking ∧
    (insertAndCapture cfg ts row a s).2.objects = s.objects ∧
    (insertAndCapture cfg ts row a s).2.snap = s.snap ∧
    (∃ Δ, (insertAndCapture cfg ts row a s).2.tr = s.tr ++ Δ) := by
  unfold insertAndCapture insert_row
  cases hif : cfg.faults.insertFail ts.table a.columns a.vals with
  | some e => simp
  | none => cases hr : rowRefName row <;> simp

/-- A row step never touches the tracking table, the catalog or the open
snapshot, and only appends to the trace. -/
theorem processRow_pres (cfg : Cfg) (ts : TableSeed) (row : RowMap) (s : ExecSt) :
    (processRow cfg ts row s).2.tracking = s.tracking ∧
    (processRow cfg ts row s).2.objects = s.objects ∧
    (processRow cfg ts row s).2.snap = s.snap ∧
    (∃ Δ, (processRow cfg ts row s).2.tr = s.tr ++ Δ) := by
  rcases hb : buildArrays s.refs cfg.env ts.unique_key row with e | a
  · simp [processRow, hb]
  · simp only [processRow, hb]
    by_cases hu : ts.unique_key.isEmpty
    · simp only [hu, if_pos]
      exact insertAndCapture_pres cfg ts row a s
    · simp only [hu, Bool.false_eq_true, if_false, row_exists]
      by_cases he : a.ucols.isEmpty
      · simp only [he, if_pos]
        exact insertAndCapture_pres cfg ts row a s
      · simp only [he, Bool.false_eq_true, if_false]
        by_cases hex : rowExistsB s ts.table a.ucols a.uvals
        · simp [hex]
        · simp only [hex, Bool.false_eq_true]
          have h := insertAndCapture_pres cfg ts row a
            { s with tr := s.tr ++ [Ev.rowExists ts.table a.ucols a.uvals] }
          simp only [] at h
          obtain ⟨h1, h2, h3, Δ, h4⟩ := h
          exact ⟨h1, h2, h3, Ev.rowExists ts.table a.ucols a.uvals :: Δ, by simp [h4]⟩

/-- The row loop preserves tracking/objects/snapshot and appends to the
trace. -/
theorem applyRows_pres (cfg : Cfg) (ts : TableSeed) :
    ∀ (rows : List RowMap) (s : ExecSt),
      (applyRows cfg ts rows s).2.tracking = s.tracking ∧
      (applyRows cfg ts rows s).2.objects = s.objects ∧
      (applyRows cfg ts rows s).2.snap = s.snap ∧
      (∃ Δ, (applyRows cfg ts rows s).2.tr = s.tr ++ Δ) := by
  intro rows
  induction rows with
  | nil => intro s; simp [applyRows]
  | cons r t ih =>
    intro s
    obtain ⟨p1, p2, p3, Δ1, p4⟩ := processRow_pres cfg ts r s
    rcases hp : processRow cfg ts r s with ⟨r1, s1⟩
    rw [hp] at p1 p2 p3 p4
    simp only [] at p1 p2 p3 p4
    cases r1 with
    | error e => simp [applyRows, hp, p1, p2, p3]; exact ⟨Δ1, p4⟩
    | ok u =>
      obtain ⟨q1, q2, q3, Δ2, q4⟩ := ih s1
      simp only [applyRows, hp]
      exact ⟨q1.trans p1, q2.trans p2, q3.trans p3, Δ1 ++ Δ2,
        by rw [q4, p4, List.append_assoc]⟩

/-- The table loop preserves tracking/objects/snapshot and appends to the
trace. -/
theorem applyTablesLoop_pres (cfg : Cfg) :
    ∀ (l : List TableSeed) (s : ExecSt),
      (applyTablesLoop cfg l s).2.tracking = s.tracking ∧
      (applyTablesLoop cfg l s).2.objects = s.objects ∧
      (applyTablesLoop cfg l s).2.snap = s.snap ∧
      (∃ Δ, (applyTablesLoop cfg l s).2.tr = s.tr ++ Δ) := by
  intro l
  induction l with
  | nil => intro s; simp [applyTablesLoop]
  | cons ts t ih =>
    intro s
    obtain ⟨p1, p2, p3, Δ1, p4⟩ := applyRows_pres cfg ts ts.rows s
    rcases hp : apply_table_seed cfg ts s with ⟨r1, s1⟩
    rw [apply_table_seed] at hp
    rw [hp] at p1 p2 p3 p4
    simp only [] at p1 p2 p3 p4
    cases r1 with
    | error e =>
      simp only [applyTablesLoop, apply_table_seed, hp]
      exact ⟨p1, p2, p3, Δ1, p4⟩
    | ok u =>
      obtain ⟨q1, q2, q3, Δ2, q4⟩ := ih s1
      simp only [applyTablesLoop, apply_table_seed, hp]
      exact ⟨q1.trans p1, q2.trans p2, q3.trans p3, Δ1 ++ Δ2,
        by rw [q4, p4, List.append_assoc]⟩

/-- `apply_seed_set_tables` preserves tracking/objects/snapshot and appends
to the trace. -/
theorem apply_seed_set_tables_pres (cfg : Cfg) (ss : SeedSet) (s : ExecSt) :
    (apply_seed_set_tables cfg ss s).2.tracking = s.tracking ∧
    (apply_seed_set_tables cfg ss s).2.objects = s.objects ∧
    (apply_seed_set_tables cfg ss s).2.snap = s.snap ∧
    (∃ Δ, (apply_seed_set_tables cfg ss s).2.tr = s.tr ++ Δ) := by
  unfold apply_seed_set_tables
  exact applyTablesLoop_pres cfg (stableSort tsLtAsc ss.tables) s

/-- The state at which `execute_seed_set` enters `apply_seed_set_tables`
(after the skip check and `BEGIN`), outside reset mode with the seed set not
yet marked. -/
def txnEntrySt (cfg : Cfg) (ss : SeedSet) (s : ExecSt) : ExecSt :=
  { s with snap := some ⟨s.tables, s.tracking⟩,
           tr := s.tr ++ [Ev.isApplied cfg.tracking_table ss.name] ++ [Ev.begin] }

/-- `trackList` only reads the `tracking` component. -/
theorem trackList_congr {s s' : ExecSt} (h : s'.tracking = s.tracking) (tt : String) :
    trackList s' tt = trackList s tt := by
  simp [trackList, h]

/-- Reduction of `execute_seed_set` to its transactional tail, outside reset
mode when the seed set is not yet marked. -/
theorem ess_reduce (cfg : Cfg) (ss : SeedSet) (s : ExecSt)
    (hreset : cfg.reset = false)
    (hnot : ss.name ∉ trackList s cfg.tracking_table) :
    execute_seed_set cfg ss s =
      match apply_seed_set_tables cfg ss (txnEntrySt cfg ss s) with
      | (.ok _, s3) =>
        match mark_seed_applied cfg.tracking_table ss.name s3 with
        | (.error e, s4) => (.error e, s4)
        | (.ok _, s4) =>
          match commit_transaction s4 with
          | (.error e, s5) => (.error e, s5)
          | (.ok _, s5) => (.ok (), s5)
      | (.error e, s3) =>
        match rollback_transaction cfg.faults s3 with
        | (.error e2, s4) => (.error e2, s4)
        | (.ok _, s4) => (.error ("seed set '" ++ ss.name ++ "' failed: " ++ e), s4) := by
  have hdec : decide (ss.name ∈ trackList s cfg.tracking_table) = false := by
    simpa using hnot
  simp only [execute_seed_set, resetPart, hreset, Bool.false_eq_true, if_false,
    is_seed_applied, hdec, begin_transaction, txnEntrySt]

/-- C2: if any error occurs while applying a seed set's tables,
`rollback_transaction` is invoked before the error is propagated (the call
trace ends with the `ROLLBACK` event), and afterwards the durable state is
restored: the tracking table does not contain the seed set's name and the
seeded tables contain no rows inserted by the failing seed set
(`tables`/`tracking` equal their pre-run values).  On success the
tracking-table mark is written inside the same transaction as the row
inserts: the trace ends with `mark_seed_applied` immediately followed by
`commit_transaction`. -/
theorem c2_seed_set_atomicity (cfg : Cfg) (ss : SeedSet) (s : ExecSt)
    (hreset : cfg.reset = false)
    (hnot : ss.name ∉ trackList s cfg.tracking_table) :
    (isErr (execute_seed_set cfg ss s).1 = true →
      (execute_seed_set cfg ss s).2.tables = s.tables ∧
      (execute_seed_set cfg ss s).2.tracking = s.tracking ∧
      ss.name ∉ trackList (execute_seed_set cfg ss s).2 cfg.tracking_table ∧
      ∃ pre, (execute_seed_set cfg ss s).2.tr = s.tr ++ pre ++ [Ev.rollback]) ∧
    ((execute_seed_set cfg ss s).1 = .ok () →
      ∃ pre, (execute_seed_set cfg ss s).2.tr =
        s.tr ++ pre ++ [Ev.mark cfg.tracking_table ss.name, Ev.commit]) := by
  have hred := ess_reduce cfg ss s hreset hnot
  obtain ⟨p1, p2, p3, Δ, p4⟩ := apply_seed_set_tables_pres cfg ss (txnEntrySt cfg ss s)
  rcases hap : apply_seed_set_tables cfg ss (txnEntrySt cfg ss s) with ⟨r3, s3⟩
  rw [hap] at hred p1 p2 p3 p4
  simp only [] at hred p1 p2 p3 p4
  simp only [txnEntrySt] at p1 p2 p3 p4
  cases r3 with
  | ok u =>
    simp only [mark_seed_applied, commit_transaction, p3] at hred
    rw [hred]
    constructor
    · intro hcontra
      simp [isErr] at hcontra
    · intro _
      refine ⟨[Ev.isApplied cfg.tracking_table ss.name, Ev.begin] ++ Δ, ?_⟩
      simp [p4, List.append_assoc]
  | error e =>
    simp only [rollback_transaction, p3] at hred
    cases hrb : cfg.faults.rollbackFail with
    | some e2 =>
      rw [hrb] at hred
      rw [hred]
      constructor
      · intro _
        refine ⟨rfl, rfl, ?_, ?_⟩
        · simpa [trackList] using hnot
        · exact ⟨[Ev.isApplied cfg.tracking_table ss.name, Ev.begin] ++ Δ,
            by simp [p4, List.append_assoc]⟩
      · intro hcontra
        simp at hcontra
    | none =>
      rw [hrb] at hred
      rw [hred]
      constructor
      · intro _
        refine ⟨rfl, rfl, ?_, ?_⟩
        · simpa [trackList] using hnot
        · exact ⟨[Ev.isApplied cfg.tracking_table ss.name, Ev.begin] ++ Δ,
            by simp [p4, List.append_assoc]⟩
      · intro hcontra
        simp at hcontra

/-- C4 (amended): when applying a seed set's tables fails with error `e`,
the error surfaced to the caller is the original annotated with the seed-set
name **provided the rollback statement succeeds**; if `rollback_transaction`
itself fails, its error is propagated through `?` in place of the original
(`executor.rs:183`), so the original annotated error is lost — refuting the
claim that the rollback's outcome is always swallowed
(`c4_counterexample`). -/
theorem c4_error_annotation (cfg : Cfg) (ss : SeedSet) (s : ExecSt) (e : String)
    (hreset : cfg.reset = false)
    (hnot : ss.name ∉ trackList s cfg.tracking_table)
    (hap1 : (apply_seed_set_tables cfg ss (txnEntrySt cfg ss s)).1 = .error e) :
    (cfg.faults.rollbackFail = none →
      (execute_seed_set cfg ss s).1 = .error ("seed set '" ++ ss.name ++ "' failed: " ++ e)) ∧
    (∀ e2, cfg.faults.rollbackFail = some e2 →
      (execute_seed_set cfg ss s).1 = .error ("rolling back transaction: " ++ e2)) := by
  have hred := ess_reduce cfg ss s hreset hnot
  obtain ⟨p1, p2, p3, Δ, p4⟩ := apply_seed_set_tables_pres cfg ss (txnEntrySt cfg ss s)
  rcases hap : apply_seed_set_tables cfg ss (txnEntrySt cfg ss s) with ⟨r3, s3⟩
  rw [hap] at hred p3 hap1
  simp only [] at hred p3 hap1
  simp only [txnEntrySt] at p3
  subst hap1
  simp only [rollback_transaction, p3] at hred
  constructor
  · intro hrb
    rw [hrb] at hred
    rw [hred]
  · intro e2 hrb
    rw [hrb] at hred
    rw [hred]

/-- Oracles for the C4 counterexample: every insert fails with `boom` and
the rollback statement fails with `lost connection`. -/
def wFaultsBoomRB : Faults := ⟨fun _ _ _ => some "boom", fun _ => none, some "lost connection"⟩

/-- Oracles where every insert fails with `boom` (rollback succeeds). -/
def wFaultsBoom : Faults := ⟨fun _ _ _ => some "boom", fun _ => none, none⟩

/-- A one-table, one-row seed set for failure scenarios. -/
def wSS4 : SeedSet := ⟨"s", 0, [⟨"t1", 0, [], none, [[("a", Value.str "1")]]⟩]⟩

/-- C4 counterexample: with a failing insert and a failing rollback, the
surfaced error is the rollback's own (`rolling back transaction: lost
connection`), not the original error annotated with the seed-set name. -/
theorem c4_counterexample :
    (execute_seed_set ⟨wFaultsBoomRB, [], "initium_seed", false⟩ wSS4 wSt).1 =
      .error "rolling back transaction: lost connection" ∧
    ("rolling back transaction: lost connection" : String) ≠
      "seed set 's' failed: inserting row into 't1': boom" := by
  decide

/-- Witness for `c2_seed_set_atomicity`: a failing run restores the state and
ends in a rollback; a succeeding run marks then commits. -/
theorem c2_seed_set_atomicity_witness :
    (execute_seed_set ⟨wFaultsBoom, [], "initium_seed", false⟩ wSS4 wSt).2.tables =
      wSt.tables ∧
    (execute_seed_set ⟨wFaultsBoom, [], "initium_seed", false⟩ wSS4 wSt).2.tracking =
      wSt.tracking ∧
    "s" ∉ trackList (execute_seed_set ⟨wFaultsBoom, [], "initium_seed", false⟩ wSS4 wSt).2
      "initium_seed" ∧
    (∃ pre, (execute_seed_set ⟨wFaultsBoom, [], "initium_seed", false⟩ wSS4 wSt).2.tr =
      wSt.tr ++ pre ++ [Ev.rollback]) ∧
    (∃ pre, (execute_seed_set wCfg ⟨"basic", 0, [wTs]⟩ wSt).2.tr =
      wSt.tr ++ pre ++ [Ev.mark "initium_seed" "basic", Ev.commit]) := by
  have h := c2_seed_set_atomicity ⟨wFaultsBoom, [], "initium_seed", false⟩ wSS4 wSt
    rfl (by decide)
  have herr := h.1 (by decide)
  have h2 := c2_seed_set_atomicity wCfg ⟨"basic", 0, [wTs]⟩ wSt rfl (by decide)
  have hok := h2.2 (by decide)
  exact ⟨herr.1, herr.2.1, herr.2.2.1, herr.2.2.2, hok⟩

/-- Witness for `c4_error_annotation`, exercising both rollback outcomes. -/
theorem c4_error_annotation_witness :
    (execute_seed_set ⟨wFaultsBoom, [], "initium_seed", false⟩ wSS4 wSt).1 =
      .error ("seed set '" ++ "s" ++ "' failed: " ++ "inserting row into 't1': boom") ∧
    (execute_seed_set ⟨wFaultsBoomRB, [], "initium_seed", false⟩ wSS4 wSt).1 =
      .error ("rolling back transaction: " ++ "lost connection") := by
  have h1 := c4_error_annotation ⟨wFaultsBoom, [], "initium_seed", false⟩ wSS4 wSt
    "inserting row into 't1': boom" rfl (by decide) (by decide)
  have h2 := c4_error_annotation ⟨wFaultsBoomRB, [], "initium_seed", false⟩ wSS4 wSt
    "inserting row into 't1': boom" rfl (by decide) (by decide)
  exact ⟨h1.1 rfl, h2.2 "lost connection" rfl⟩

/-! ## C9 — a skipped row registers no reference -/

/-- C9: when a row that declares a `_ref` name is skipped because
`row_exists` reports its `unique_key` tuple as already present, the row
routine returns with the state unchanged except for the probe's trace event
— in particular the reference store is untouched, so no entry is recorded
under the `_ref` name; consequently a later `@ref:NAME.col` for a name
absent from the reference store fails with the reference-not-found error
rather than seeing the pre-existing database row's values. -/
theorem c9_skipped_row_not_captured (cfg : Cfg) (ts : TableSeed) (row : RowMap) (s : ExecSt) (r : String)
    (_href : rowRefName row = some r)
    (hne : ts.unique_key.isEmpty = false) :
    (∀ a : RowArrays, buildArrays s.refs cfg.env ts.unique_key row = .ok a →
      a.ucols.isEmpty = false →
      rowExistsB s ts.table a.ucols a.uvals = true →
      processRow cfg ts row s =
        (.ok (), { s with tr := s.tr ++ [Ev.rowExists ts.table a.ucols a.uvals] })) ∧
    (∀ (refs : List (String × List (String × String))) (env : List (String × String))
        (col : String), alGet r refs = none → ('.' ∉ r.data) →
      resolve_value refs env (.str ("@ref:" ++ r ++ "." ++ col)) =
        .error ("reference '" ++ r ++ "' not found (ensure it appears before use)")) := by
  constructor
  · intro a ha huc hex
    simp [processRow, ha, hne, row_exists, huc, hex]
  · intro refs env col hmiss hdot
    have hdata : ("@ref:" ++ r ++ "." ++ col).data =
        "@ref:".data ++ (r.data ++ '.' :: col.data) := by
      simp [String.data_append]
    simp only [resolve_value, hdata, stripPrefixL_append]
    simp [resolve_reference, splitFirstDot_append r.data col.data hdot, strMkData, hmiss]


/-- A state whose `departments` table already contains the row the seed
declares. -/
def wStRow : ExecSt := { wSt with tables := [("departments", [[("name", "Engineering")]])] }


/-- Witness for `c9_skipped_row_not_captured` at a concrete pre-seeded
state. -/
theorem c9_skipped_row_not_captured_witness :
    processRow wCfg wTs [("_ref", Value.str "dept"), ("name", Value.str "Engineering")] wStRow =
      (.ok (), { wStRow with
        tr := wStRow.tr ++ [Ev.rowExists "departments" ["name"] ["Engineering"]] }) ∧
    resolve_value [] [] (.str ("@ref:" ++ "dept" ++ "." ++ "id")) =
      .error ("reference '" ++ "dept" ++ "' not found (ensure it appears before use)") := by
  have h := c9_skipped_row_not_captured wCfg wTs [("_ref", Value.str "dept"), ("name", Value.str "Engineering")]
    wStRow "dept" rfl rfl
  exact ⟨h.1 ⟨["name"], ["Engineering"], ["name"], ["Engineering"]⟩ (by decide) (by decide)
    (by decide), h.2 [] [] "id" rfl (by decide)⟩

def EqNoTr (s s' : ExecSt) : Prop :=
  s'.tables = s.tables ∧ s'.tracking = s.tracking ∧ s'.objects = s.objects ∧
  s'.snap = s.snap ∧ s'.refs = s.refs

def SkipEv : Ev → Prop
  | .ensure _ => True
  | .isApplied _ _ => True
  | .createDb _ => True
  | .createSchema _ => True
  | .objExists _ _ => True
  | _ => False

def Mono (s s' : ExecSt) : Prop :=
  (∀ x ∈ s.objects, x ∈ s'.objects) ∧
  (∀ tt n, n ∈ trackList s tt → n ∈ trackList s' tt) ∧
  (∀ k, (alGet k s.tracking).isSome = true → (alGet k s'.tracking).isSome = true)

def PhaseReady (cfg : Cfg) (s : ExecSt) (ph : SeedPhase) : Prop :=
  (ph.create_if_missing = true → ph.database ≠ "" →
    ("database", sanitize_identifier ph.database) ∈ s.objects) ∧
  (ph.create_if_missing = true → ph.schema ≠ "" →
    ("schema", sanitize_identifier ph.schema) ∈ s.objects) ∧
  (∀ wf ∈ ph.wait_for, (wf.obj_type, wf.name) ∈ s.objects) ∧
  (∀ ss ∈ ph.seed_sets, ss.name ∈ trackList s cfg.tracking_table)

theorem Mono_refl (s : ExecSt) : Mono s s :=
  ⟨fun _ h => h, fun _ _ h => h, fun _ h => h⟩

theorem Mono_trans {s1 s2 s3 : ExecSt} (h1 : Mono s1 s2) (h2 : Mono s2 s3) : Mono s1 s3 :=
  ⟨fun x hx => h2.1 x (h1.1 x hx), fun tt n hn => h2.2.1 tt n (h1.2.1 tt n hn),
    fun k hk => h2.2.2 k (h1.2.2 k hk)⟩

theorem EqNoTr_trackList {s s' : ExecSt} (h : EqNoTr s s') (tt : String) :
    trackList s' tt = trackList s tt := by
  simp [trackList, h.2.1]

theorem EqNoTr_refl (s : ExecSt) : EqNoTr s s := ⟨rfl, rfl, rfl, rfl, rfl⟩

theorem EqNoTr_trans {s1 s2 s3 : ExecSt} (h1 : EqNoTr s1 s2) (h2 : EqNoTr s2 s3) :
    EqNoTr s1 s3 :=
  ⟨h2.1.trans h1.1, h2.2.1.trans h1.2.1, h2.2.2.1.trans h1.2.2.1,
    h2.2.2.2.1.trans h1.2.2.2.1, h2.2.2.2.2.trans h1.2.2.2.2⟩

theorem EqNoTr_Mono {s s' : ExecSt} (h : EqNoTr s s') : Mono s s' := by
  refine ⟨fun x hx => ?_, fun tt n hn => ?_, fun k hk => ?_⟩
  · rw [h.2.2.1]; exact hx
  · rw [EqNoTr_trackList h]; exact hn
  · rw [h.2.1]; exact hk

theorem PhaseReady_mono {cfg : Cfg} {s s' : ExecSt} {ph : SeedPhase}
    (hm : Mono s s') (hr : PhaseReady cfg s ph) : PhaseReady cfg s' ph :=
  ⟨fun a b => hm.1 _ (hr.1 a b), fun a b => hm.1 _ (hr.2.1 a b),
    fun wf hwf => hm.1 _ (hr.2.2.1 wf hwf),
    fun ss hss => hm.2.1 _ _ (hr.2.2.2 ss hss)⟩

theorem mem_insertIfAbsent_self {α : Type} [DecidableEq α] (x : α) (l : List α) :
    x ∈ insertIfAbsent x l := by
  by_cases h : x ∈ l <;> simp [insertIfAbsent, h]

theorem mem_insertIfAbsent_of_mem {α : Type} [DecidableEq α] {z : α} (x : α) {l : List α}
    (h : z ∈ l) : z ∈ insertIfAbsent x l := by
  by_cases hx : x ∈ l <;> simp [insertIfAbsent, hx, h]

theorem insertIfAbsent_of_mem {α : Type} [DecidableEq α] {x : α} {l : List α} (h : x ∈ l) :
    insertIfAbsent x l = l := by
  simp [insertIfAbsent, h]

theorem ess_skip (cfg : Cfg) (ss : SeedSet) (s : ExecSt) (hreset : cfg.reset = false)
    (hin : ss.name ∈ trackList s cfg.tracking_table) :
    execute_seed_set cfg ss s =
      (.ok (), { s with tr := s.tr ++ [Ev.isApplied cfg.tracking_table ss.name] }) := by
  have hdec : decide (ss.name ∈ trackList s cfg.tracking_table) = true := by simpa using hin
  simp only [execute_seed_set, resetPart, hreset, Bool.false_eq_true, if_false,
    is_seed_applied, hdec]

theorem trackList_mark (s : ExecSt) (tt name : String) (newtk : List (String × List String))
    (hset : newtk = alSet (sanitize_identifier tt) (insertIfAbsent name (trackList s tt))
      s.tracking) :
    (∀ tt' n, n ∈ trackList s tt' →
      n ∈ (alGet (sanitize_identifier tt') newtk).getD []) ∧
    name ∈ (alGet (sanitize_identifier tt) newtk).getD [] ∧
    (∀ k, (alGet k s.tracking).isSome = true → (alGet k newtk).isSome = true) := by
  subst hset
  refine ⟨?_, ?_, ?_⟩
  · intro tt' n hn
    by_cases hk : sanitize_identifier tt = sanitize_identifier tt'
    · rw [← hk, alGet_alSet_self]
      have : trackList s tt' = trackList s tt := by simp [trackList, hk]
      rw [this] at hn
      exact mem_insertIfAbsent_of_mem name hn
    · rw [alGet_alSet_ne _ _ _ hk]
      exact hn
  · rw [alGet_alSet_self]
    exact mem_insertIfAbsent_self name _
  · intro k hk
    by_cases hkk : sanitize_identifier tt = k
    · rw [← hkk, alGet_alSet_self]; rfl
    · rw [alGet_alSet_ne _ _ _ hkk]; exact hk

theorem ess_ok_mono (cfg : Cfg) (ss : SeedSet) (s : ExecSt) (hreset : cfg.reset = false)
    (hok : (execute_seed_set cfg ss s).1 = .ok ()) :
    Mono s (execute_seed_set cfg ss s).2 ∧
    ss.name ∈ trackList (execute_seed_set cfg ss s).2 cfg.tracking_table ∧
    (execute_seed_set cfg ss s).2.objects = s.objects := by
  by_cases hin : ss.name ∈ trackList s cfg.tracking_table
  · rw [ess_skip cfg ss s hreset hin]
    refine ⟨EqNoTr_Mono ⟨rfl, rfl, rfl, rfl, rfl⟩, ?_, rfl⟩
    simpa [trackList] using hin
  · have hred := ess_reduce cfg ss s hreset hin
    obtain ⟨p1, p2, p3, Δ, p4⟩ := apply_seed_set_tables_pres cfg ss (txnEntrySt cfg ss s)
    rcases hap : apply_seed_set_tables cfg ss (txnEntrySt cfg ss s) with ⟨r3, s3⟩
    rw [hap] at hred p1 p2 p3
    simp only [] at hred p1 p2 p3
    simp only [txnEntrySt] at p1 p2 p3
    cases r3 with
    | error e =>
      simp only [rollback_transaction, p3] at hred
      cases hrb : cfg.faults.rollbackFail with
      | some e2 => rw [hrb] at hred; rw [hred] at hok; simp at hok
      | none => rw [hrb] at hred; rw [hred] at hok; simp at hok
    | ok u =>
      simp only [mark_seed_applied, commit_transaction, p3] at hred
      rw [hred]
      obtain ⟨m1, m2, m3⟩ := trackList_mark s cfg.tracking_table ss.name
        (alSet (sanitize_identifier cfg.tracking_table)
          (insertIfAbsent ss.name (trackList s3 cfg.tracking_table)) s3.tracking)
        (by rw [p1]; congr 1; simp [trackList, p1])
      refine ⟨⟨?_, ?_, ?_⟩, ?_, ?_⟩
      · intro x hx
        simpa [p2] using hx
      · intro tt n hn
        simpa [trackList] using m1 tt n hn
      · intro k hk
        have : (alGet k s3.tracking).isSome = true := by rw [p1]; exact hk
        simpa [] using m3 k hk
      · simpa [trackList] using m2
      · simpa [] using p2

theorem seedSetsLoop_ok_mono (cfg : Cfg) (hreset : cfg.reset = false) :
    ∀ (l : List SeedSet) (s : ExecSt), (seedSetsLoop cfg l s).1 = .ok () →
      Mono s (seedSetsLoop cfg l s).2 ∧
      (∀ ss ∈ l, ss.name ∈ trackList (seedSetsLoop cfg l s).2 cfg.tracking_table) ∧
      (seedSetsLoop cfg l s).2.objects = s.objects := by
  intro l
  induction l with
  | nil =>
    intro s _
    exact ⟨Mono_refl s, by simp, rfl⟩
  | cons ss t ih =>
    intro s hok
    rcases he : execute_seed_set cfg ss s with ⟨r1, s1⟩
    cases r1 with
    | error e =>
      rw [seedSetsLoop, he] at hok
      simp at hok
    | ok u =>
      have hst : (seedSetsLoop cfg (ss :: t) s) = seedSetsLoop cfg t s1 := by
        rw [seedSetsLoop, he]
      have hess := ess_ok_mono cfg ss s hreset (by rw [he])
      rw [he] at hess
      simp only [] at hess
      obtain ⟨hm1, hmark, hobj⟩ := hess
      rw [hst] at hok
      obtain ⟨m1, m2, m3⟩ := ih s1 hok
      rw [hst]
      refine ⟨Mono_trans hm1 m1, ?_, m3.trans hobj⟩
      intro ss' hss'
      rcases List.mem_cons.mp hss' with rfl | hss'
      · exact m1.2.1 _ _ hmark
      · exact m2 ss' hss'

theorem wait_for_object_run (wf : WaitForObject) (pt : ℕ) (s : ExecSt) :
    ((wf.obj_type, wf.name) ∈ s.objects →
      wait_for_object wf pt s =
        (.ok (), { s with tr := s.tr ++ [Ev.objExists wf.obj_type wf.name] })) ∧
    ((wait_for_object wf pt s).1 = .ok () → (wf.obj_type, wf.name) ∈ s.objects) := by
  constructor
  · intro hm
    have hdec : decide ((wf.obj_type, wf.name) ∈ s.objects) = true := by simpa using hm
    simp only [wait_for_object, object_exists, hdec]
  · intro hok
    by_cases hm : (wf.obj_type, wf.name) ∈ s.objects
    · exact hm
    · exfalso
      have hdec : decide ((wf.obj_type, wf.name) ∈ s.objects) = false := by simpa using hm
      simp only [wait_for_object, object_exists, hdec] at hok
      exact absurd hok (by simp)

theorem waitLoop_ok (pt : ℕ) :
    ∀ (l : List WaitForObject) (s : ExecSt), (waitLoop pt l s).1 = .ok () →
      EqNoTr s (waitLoop pt l s).2 ∧
      (∀ wf ∈ l, (wf.obj_type, wf.name) ∈ s.objects) := by
  intro l
  induction l with
  | nil => intro s _; exact ⟨EqNoTr_refl s, by simp⟩
  | cons wf t ih =>
    intro s hok
    by_cases hm : (wf.obj_type, wf.name) ∈ s.objects
    · have hw := (wait_for_object_run wf pt s).1 hm
      have hst : waitLoop pt (wf :: t) s =
          waitLoop pt t { s with tr := s.tr ++ [Ev.objExists wf.obj_type wf.name] } := by
        rw [waitLoop, hw]
      rw [hst] at hok ⊢
      obtain ⟨e1, e2⟩ := ih _ hok
      refine ⟨EqNoTr_trans ⟨rfl, rfl, rfl, rfl, rfl⟩ e1, ?_⟩
      intro wf' hwf'
      rcases List.mem_cons.mp hwf' with rfl | hwf'
      · exact hm
      · simpa using e2 wf' hwf'
    · exfalso
      rcases hw : wait_for_object wf pt s with ⟨r1, s1⟩
      cases r1 with
      | ok u =>
        have := (wait_for_object_run wf pt s).2 (by rw [hw])
        exact hm this
      | error e =>
        rw [waitLoop, hw] at hok
        simp at hok

theorem createStep_run (ph : SeedPhase) (s : ExecSt) :
    (createStep ph s).1 = .ok () ∧
    (createStep ph s).2.tables = s.tables ∧
    (createStep ph s).2.tracking = s.tracking ∧
    (createStep ph s).2.snap = s.snap ∧
    (createStep ph s).2.refs = s.refs ∧
    (∀ x ∈ s.objects, x ∈ (createStep ph s).2.objects) ∧
    (ph.create_if_missing = true → ph.database ≠ "" →
      ("database", sanitize_identifier ph.database) ∈ (createStep ph s).2.objects) ∧
    (ph.create_if_missing = true → ph.schema ≠ "" →
      ("schema", sanitize_identifier ph.schema) ∈ (createStep ph s).2.objects) := by
  by_cases hc : ph.create_if_missing
  · by_cases hd : ph.database ≠ "" <;> by_cases hs : ph.schema ≠ "" <;>
      simp [createStep, hc, hd, hs, create_database, create_schema,
        mem_insertIfAbsent_self, mem_insertIfAbsent_of_mem]
    all_goals intro a b hab
    all_goals first
      | exact mem_insertIfAbsent_of_mem _ (mem_insertIfAbsent_of_mem _ hab)
      | exact mem_insertIfAbsent_of_mem _ hab
  · simp [createStep, hc]

theorem execute_phase_ok_mono (cfg : Cfg) (ph : SeedPhase) (s : ExecSt)
    (hreset : cfg.reset = false)
    (hok : (execute_phase cfg ph s).1 = .ok ()) :
    Mono s (execute_phase cfg ph s).2 ∧ PhaseReady cfg (execute_phase cfg ph s).2 ph := by
  obtain ⟨c1, c2, c3, c4, c5, c6, c7, c8⟩ := createStep_run ph s
  rcases hcs : createStep ph s with ⟨r1, s1⟩
  rw [hcs] at c1 c2 c3 c4 c5 c6 c7 c8
  simp only [] at c1 c2 c3 c4 c5 c6 c7 c8
  subst c1
  rcases hwl : waitLoop ph.timeout ph.wait_for s1 with ⟨r2, s2⟩
  cases r2 with
  | error e =>
    rw [execute_phase, hcs] at hok
    dsimp only [] at hok
    rw [hwl] at hok
    simp at hok
  | ok u =>
    have hwait := waitLoop_ok ph.timeout ph.wait_for s1 (by rw [hwl])
    rw [hwl] at hwait
    simp only [] at hwait
    obtain ⟨hw1, hw2⟩ := hwait
    have hst : execute_phase cfg ph s = seedSetsLoop cfg (stableSort ssLtAsc ph.seed_sets) s2 := by
      rw [execute_phase, hcs]
      dsimp only []
      rw [hwl]
      dsimp only []
      simp [hreset]
    rw [hst] at hok ⊢
    obtain ⟨m1, m2, m3⟩ := seedSetsLoop_ok_mono cfg hreset (stableSort ssLtAsc ph.seed_sets)
      s2 hok
    have hmono1 : Mono s s2 := by
      refine Mono_trans ?_ (EqNoTr_Mono hw1)
      exact ⟨c6, fun tt n hn => by simpa [trackList, c3] using hn,
        fun k hk => by simpa [c3] using hk⟩
    refine ⟨Mono_trans hmono1 m1, ?_, ?_, ?_, ?_⟩
    · intro hcim hdb
      have : ("database", sanitize_identifier ph.database) ∈ s2.objects := by
        rw [hw1.2.2.1]; exact c7 hcim hdb
      rw [m3]; exact this
    · intro hcim hsc
      have : ("schema", sanitize_identifier ph.schema) ∈ s2.objects := by
        rw [hw1.2.2.1]; exact c8 hcim hsc
      rw [m3]; exact this
    · intro wf hwf
      have : (wf.obj_type, wf.name) ∈ s2.objects := by
        rw [hw1.2.2.1]; exact hw2 wf hwf
      rw [m3]; exact this
    · intro ss hss
      exact m2 ss ((stableSort_mem ssLtAsc ph.seed_sets ss).mpr hss)

/-- `ensure_tracking_table` always succeeds, grows the catalog and the
tracking store monotonically, and leaves both the table object and the
tracking key in place. -/
theorem ett_run (tt : String) (s : ExecSt) :
    (ensure_tracking_table tt s).1 = .ok () ∧
    Mono s (ensure_tracking_table tt s).2 ∧
    ("table", sanitize_identifier tt) ∈ (ensure_tracking_table tt s).2.objects ∧
    (alGet (sanitize_identifier tt) (ensure_tracking_table tt s).2.tracking).isSome = true ∧
    EqNoTr { s with
      objects := (ensure_tracking_table tt s).2.objects,
      tracking := (ensure_tracking_table tt s).2.tracking } (ensure_tracking_table tt s).2 := by
  by_cases hk : (alGet (sanitize_identifier tt) s.tracking).isSome = true
  · refine ⟨rfl, ⟨?_, ?_, ?_⟩, ?_, ?_, ⟨rfl, rfl, rfl, rfl, rfl⟩⟩
    · intro x hx
      simp only [ensure_tracking_table]
      exact mem_insertIfAbsent_of_mem _ hx
    · intro tt' n hn
      simpa [ensure_tracking_table, trackList, hk] using hn
    · intro k h
      simpa [ensure_tracking_table, hk] using h
    · simp only [ensure_tracking_table]
      exact mem_insertIfAbsent_self _ _
    · simp [ensure_tracking_table, hk]
  · have hnone : alGet (sanitize_identifier tt) s.tracking = none := by
      cases h : alGet (sanitize_identifier tt) s.tracking
      · rfl
      · rw [h] at hk
        simp at hk
    refine ⟨rfl, ⟨?_, ?_, ?_⟩, ?_, ?_, ⟨rfl, rfl, rfl, rfl, rfl⟩⟩
    · intro x hx
      simp only [ensure_tracking_table]
      exact mem_insertIfAbsent_of_mem _ hx
    · intro tt' n hn
      simp only [ensure_tracking_table, hk, if_false]
      by_cases he : sanitize_identifier tt = sanitize_identifier tt'
      · exfalso
        simp [trackList, ← he, hnone] at hn
      · simpa [trackList, alGet_alSet_ne _ _ _ he] using hn
    · intro k h
      simp only [ensure_tracking_table, hk, if_false]
      by_cases he : sanitize_identifier tt = k
      · subst he
        simp [alGet_alSet_self]
      · simpa [alGet_alSet_ne _ _ _ he] using h
    · simp only [ensure_tracking_table]
      exact mem_insertIfAbsent_self _ _
    · simp [ensure_tracking_table, hk, alGet_alSet_self]

/-- A successful phase loop run is monotone and leaves every listed phase's
preconditions satisfied in the final state. -/
theorem phasesLoop_ok_mono (cfg : Cfg) (hreset : cfg.reset = false) :
    ∀ (l : List SeedPhase) (s : ExecSt), (phasesLoop cfg l s).1 = .ok () →
      Mono s (phasesLoop cfg l s).2 ∧
      (∀ ph ∈ l, PhaseReady cfg (phasesLoop cfg l s).2 ph) := by
  intro l
  induction l with
  | nil =>
    intro s _
    exact ⟨Mono_refl s, by simp⟩
  | cons ph t ih =>
    intro s hok
    rcases he : execute_phase cfg ph s with ⟨r1, s1⟩
    cases r1 with
    | error e =>
      rw [phasesLoop, he] at hok
      simp at hok
    | ok u =>
      have hst : phasesLoop cfg (ph :: t) s = phasesLoop cfg t s1 := by
        rw [phasesLoop, he]
      have hep := execute_phase_ok_mono cfg ph s hreset (by rw [he])
      rw [he] at hep
      simp only [] at hep
      obtain ⟨hm1, hr1⟩ := hep
      rw [hst] at hok
      obtain ⟨m1, m2⟩ := ih s1 hok
      rw [hst]
      refine ⟨Mono_trans hm1 m1, ?_⟩
      intro ph' hph'
      rcases List.mem_cons.mp hph' with rfl | hph'
      · exact PhaseReady_mono m1 hr1
      · exact m2 ph' hph'

/-- A run on a state that needs no work: success, no durable change, and a
trace extension made only of read/no-op events. -/
def SkipRun (s : ExecSt) (p : Except String Unit × ExecSt) : Prop :=
  p.1 = .ok () ∧ EqNoTr s p.2 ∧ ∃ Δ, p.2.tr = s.tr ++ Δ ∧ ∀ ev ∈ Δ, SkipEv ev

theorem SkipRun_refl (s : ExecSt) : SkipRun s (.ok (), s) :=
  ⟨rfl, EqNoTr_refl s, [], by simp, by simp⟩

theorem SkipRun_of_tr (s : ExecSt) (Δ : List Ev) (h : ∀ ev ∈ Δ, SkipEv ev) :
    SkipRun s (.ok (), { s with tr := s.tr ++ Δ }) :=
  ⟨rfl, ⟨rfl, rfl, rfl, rfl, rfl⟩, Δ, rfl, h⟩

theorem SkipRun_trans {s s2 : ExecSt} {p : Except String Unit × ExecSt}
    (h1 : SkipRun s (.ok (), s2)) (h2 : SkipRun s2 p) : SkipRun s p := by
  obtain ⟨-, e1, Δ1, ht1, hs1⟩ := h1
  obtain ⟨o2, e2, Δ2, ht2, hs2⟩ := h2
  refine ⟨o2, EqNoTr_trans e1 e2, Δ1 ++ Δ2, ?_, ?_⟩
  · rw [ht2, ht1, List.append_assoc]
  · intro ev hev
    rcases List.mem_append.mp hev with h | h
    · exact hs1 ev h
    · exact hs2 ev h

/-- When the tracking table and its catalog object already exist,
`ensure_tracking_table` is a pure no-op (`CREATE TABLE IF NOT EXISTS`). -/
theorem ett_ready (tt : String) (s : ExecSt)
    (hobj : ("table", sanitize_identifier tt) ∈ s.objects)
    (htk : (alGet (sanitize_identifier tt) s.tracking).isSome = true) :
    ensure_tracking_table tt s = (.ok (), { s with tr := s.tr ++ [Ev.ensure tt] }) := by
  simp [ensure_tracking_table, htk, insertIfAbsent_of_mem hobj]

/-- When the database and schema objects already exist, the DDL preflight
changes nothing durable. -/
theorem createStep_ready (ph : SeedPhase) (s : ExecSt)
    (hdb : ph.create_if_missing = true → ph.database ≠ "" →
      ("database", sanitize_identifier ph.database) ∈ s.objects)
    (hsc : ph.create_if_missing = true → ph.schema ≠ "" →
      ("schema", sanitize_identifier ph.schema) ∈ s.objects) :
    SkipRun s (createStep ph s) := by
  by_cases hc : ph.create_if_missing
  · by_cases hd : ph.database ≠ ""
    · have hde := insertIfAbsent_of_mem (hdb hc hd)
      by_cases hs : ph.schema ≠ ""
      · have hse := insertIfAbsent_of_mem (hsc hc hs)
        have hE : createStep ph s = (.ok (), { s with
            tr := s.tr ++ [Ev.createDb ph.database, Ev.createSchema ph.schema] }) := by
          simp [createStep, hc, hd, hs, create_database, create_schema, hde, hse]
        rw [hE]
        exact SkipRun_of_tr s _ (by simp [SkipEv])
      · have hE : createStep ph s =
            (.ok (), { s with tr := s.tr ++ [Ev.createDb ph.database] }) := by
          simp [createStep, hc, hd, hs, create_database, hde]
        rw [hE]
        exact SkipRun_of_tr s _ (by simp [SkipEv])
    · by_cases hs : ph.schema ≠ ""
      · have hse := insertIfAbsent_of_mem (hsc hc hs)
        have hE : createStep ph s =
            (.ok (), { s with tr := s.tr ++ [Ev.createSchema ph.schema] }) := by
          simp [createStep, hc, hd, hs, create_schema, hse]
        rw [hE]
        exact SkipRun_of_tr s _ (by simp [SkipEv])
      · have hE : createStep ph s = (.ok (), s) := by
          simp [createStep, hc, hd, hs]
        rw [hE]
        exact SkipRun_refl s
  · have hE : createStep ph s = (.ok (), s) := by
      simp [createStep, hc]
    rw [hE]
    exact SkipRun_refl s

/-- When every awaited object already exists, the wait loop only probes. -/
theorem waitLoop_ready (pt : ℕ) :
    ∀ (l : List WaitForObject) (s : ExecSt),
      (∀ wf ∈ l, (wf.obj_type, wf.name) ∈ s.objects) →
      SkipRun s (waitLoop pt l s) := by
  intro l
  induction l with
  | nil =>
    intro s _
    exact SkipRun_refl s
  | cons wf t ih =>
    intro s hm
    have hw := (wait_for_object_run wf pt s).1 (hm wf (by simp))
    have hst : waitLoop pt (wf :: t) s =
        waitLoop pt t { s with tr := s.tr ++ [Ev.objExists wf.obj_type wf.name] } := by
      rw [waitLoop, hw]
    rw [hst]
    refine SkipRun_trans (SkipRun_of_tr s _ (by simp [SkipEv])) (ih _ ?_)
    intro wf' hwf'
    exact hm wf' (by simp [hwf'])

/-- When every seed set of the list is already marked, the seed-set loop
only performs `is_seed_applied` probes. -/
theorem seedSetsLoop_ready (cfg : Cfg) (hreset : cfg.reset = false) :
    ∀ (l : List SeedSet) (s : ExecSt),
      (∀ ss ∈ l, ss.name ∈ trackList s cfg.tracking_table) →
      SkipRun s (seedSetsLoop cfg l s) := by
  intro l
  induction l with
  | nil =>
    intro s _
    exact SkipRun_refl s
  | cons ss t ih =>
    intro s hm
    have hsk := ess_skip cfg ss s hreset (hm ss (by simp))
    have hst : seedSetsLoop cfg (ss :: t) s =
        seedSetsLoop cfg t { s with tr := s.tr ++ [Ev.isApplied cfg.tracking_table ss.name] } := by
      rw [seedSetsLoop, hsk]
    rw [hst]
    refine SkipRun_trans (SkipRun_of_tr s _ (by simp [SkipEv])) (ih _ ?_)
    intro ss' hss'
    have : trackList { s with tr := s.tr ++ [Ev.isApplied cfg.tracking_table ss.name] }
        cfg.tracking_table = trackList s cfg.tracking_table := rfl
    rw [this]
    exact hm ss' (by simp [hss'])

/-- A phase whose preconditions already hold runs as pure probes. -/
theorem execute_phase_ready (cfg : Cfg) (ph : SeedPhase) (s : ExecSt)
    (hreset : cfg.reset = false) (hr : PhaseReady cfg s ph) :
    SkipRun s (execute_phase cfg ph s) := by
  have hcsr := createStep_ready ph s hr.1 hr.2.1
  rcases hcs : createStep ph s with ⟨r1, s1⟩
  rw [hcs] at hcsr
  obtain ⟨ho1, he1, hΔ1⟩ := hcsr
  simp only [] at ho1 he1 hΔ1
  subst ho1
  have hwlr := waitLoop_ready ph.timeout ph.wait_for s1 (by
    intro wf hwf
    rw [he1.2.2.1]
    exact hr.2.2.1 wf hwf)
  rcases hwl : waitLoop ph.timeout ph.wait_for s1 with ⟨r2, s2⟩
  rw [hwl] at hwlr
  obtain ⟨ho2, he2, hΔ2⟩ := hwlr
  simp only [] at ho2 he2 hΔ2
  subst ho2
  have hssr := seedSetsLoop_ready cfg hreset (stableSort ssLtAsc ph.seed_sets) s2 (by
    intro ss hss
    rw [EqNoTr_trackList (EqNoTr_trans he1 he2)]
    exact hr.2.2.2 ss ((stableSort_mem ssLtAsc ph.seed_sets ss).mp hss))
  have hst : execute_phase cfg ph s = seedSetsLoop cfg (stableSort ssLtAsc ph.seed_sets) s2 := by
    rw [execute_phase, hcs]
    dsimp only []
    rw [hwl]
    dsimp only []
    simp [hreset]
  rw [hst]
  exact SkipRun_trans ⟨rfl, he1, hΔ1⟩ (SkipRun_trans ⟨rfl, he2, hΔ2⟩ hssr)

/-- A phase list whose members' preconditions already hold runs as pure
probes. -/
theorem phasesLoop_ready (cfg : Cfg) (hreset : cfg.reset = false) :
    ∀ (l : List SeedPhase) (s : ExecSt),
      (∀ ph ∈ l, PhaseReady cfg s ph) →
      SkipRun s (phasesLoop cfg l s) := by
  intro l
  induction l with
  | nil =>
    intro s _
    exact SkipRun_refl s
  | cons ph t ih =>
    intro s hm
    have hepr := execute_phase_ready cfg ph s hreset (hm ph (by simp))
    rcases hep : execute_phase cfg ph s with ⟨r1, s1⟩
    rw [hep] at hepr
    obtain ⟨ho1, he1, hΔ1⟩ := hepr
    simp only [] at ho1 he1 hΔ1
    subst ho1
    have hst : phasesLoop cfg (ph :: t) s = phasesLoop cfg t s1 := by
      rw [phasesLoop, hep]
    rw [hst]
    refine SkipRun_trans ⟨rfl, he1, hΔ1⟩ (ih s1 ?_)
    intro ph' hph'
    exact PhaseReady_mono (EqNoTr_Mono he1) (hm ph' (by simp [hph']))

/-- C5: outside reset mode (the mode the claim's `is_seed_applied` skip
mechanism describes), a second run of `execute` on the final state of a
successful run succeeds, leaves the database state (tables, tracking,
catalog) unchanged, and performs only read/no-op driver calls — every seed
set already recorded in the tracking table is skipped at the
`is_seed_applied` probe.  Moreover, at row level, whenever a row's
`unique_key` tuple already exists the row routine returns before
`insert_row`: the only driver call it makes is the `row_exists` probe. -/
theorem c5_idempotent (cfg : Cfg) (plan : SeedPlan) (s : ExecSt)
    (hreset : cfg.reset = false)
    (hok : (execute cfg plan s).1 = .ok ()) :
    (execute cfg plan (execute cfg plan s).2).1 = .ok () ∧
    dbView (execute cfg plan (execute cfg plan s).2).2 = dbView (execute cfg plan s).2 ∧
    (∃ Δ, (execute cfg plan (execute cfg plan s).2).2.tr =
        (execute cfg plan s).2.tr ++ Δ ∧ ∀ ev ∈ Δ, SkipEv ev) ∧
    (∀ (ts : TableSeed) (row : RowMap) (a : RowArrays) (s' : ExecSt),
      buildArrays s'.refs cfg.env ts.unique_key row = .ok a →
      ts.unique_key.isEmpty = false → a.ucols.isEmpty = false →
      rowExistsB s' ts.table a.ucols a.uvals = true →
      processRow cfg ts row s' =
        (.ok (), { s' with tr := s'.tr ++ [Ev.rowExists ts.table a.ucols a.uvals] })) := by
  have hrow : ∀ (ts : TableSeed) (row : RowMap) (a : RowArrays) (s' : ExecSt),
      buildArrays s'.refs cfg.env ts.unique_key row = .ok a →
      ts.unique_key.isEmpty = false → a.ucols.isEmpty = false →
      rowExistsB s' ts.table a.ucols a.uvals = true →
      processRow cfg ts row s' =
        (.ok (), { s' with tr := s'.tr ++ [Ev.rowExists ts.table a.ucols a.uvals] }) := by
    intro ts row a s' hb hu ha hex
    simp [processRow, hb, hu, row_exists, ha, hex]
  obtain ⟨e1ok, e1mono, e1obj, e1tk, -⟩ := ett_run cfg.tracking_table s
  rcases het : ensure_tracking_table cfg.tracking_table s with ⟨r0, s0⟩
  rw [het] at e1ok e1mono e1obj e1tk
  simp only [] at e1ok e1mono e1obj e1tk
  subst e1ok
  have hexec1 : execute cfg plan s = phasesLoop cfg (stableSort phLtAsc plan.phases) s0 := by
    rw [execute, het]
  rw [hexec1] at hok ⊢
  obtain ⟨plmono, plready⟩ := phasesLoop_ok_mono cfg hreset (stableSort phLtAsc plan.phases)
    s0 hok
  rcases hpl : phasesLoop cfg (stableSort phLtAsc plan.phases) s0 with ⟨r1, F⟩
  rw [hpl] at plmono plready hok
  simp only [] at plmono plready hok ⊢
  have hobjF : ("table", sanitize_identifier cfg.tracking_table) ∈ F.objects :=
    plmono.1 _ e1obj
  have htkF : (alGet (sanitize_identifier cfg.tracking_table) F.tracking).isSome = true :=
    plmono.2.2 _ e1tk
  have het2 := ett_ready cfg.tracking_table F hobjF htkF
  have hexec2 : execute cfg plan F =
      phasesLoop cfg (stableSort phLtAsc plan.phases)
        { F with tr := F.tr ++ [Ev.ensure cfg.tracking_table] } := by
    rw [execute, het2]
  have hready1 : ∀ ph ∈ stableSort phLtAsc plan.phases,
      PhaseReady cfg { F with tr := F.tr ++ [Ev.ensure cfg.tracking_table] } ph := by
    intro ph hph
    exact PhaseReady_mono (EqNoTr_Mono ⟨rfl, rfl, rfl, rfl, rfl⟩) (plready ph hph)
  obtain ⟨hsok, hseq, Δ, htr, hskip⟩ :=
    phasesLoop_ready cfg hreset (stableSort phLtAsc plan.phases) _ hready1
  refine ⟨?_, ?_, ⟨Ev.ensure cfg.tracking_table :: Δ, ?_, ?_⟩, hrow⟩
  · rw [hexec2]
    exact hsok
  · rw [hexec2]
    simp [dbView, hseq.1, hseq.2.1, hseq.2.2.1]
  · rw [hexec2, htr]
    simp
  · intro ev hev
    rcases List.mem_cons.mp hev with rfl | hev
    · exact trivial
    · exact hskip ev hev

/-- A concrete plan covering the whole pipeline: DDL preflight, a wait-for
probe satisfied by the created database, and one seed set with a
`unique_key`-guarded row. -/
def wPlan : SeedPlan :=
  ⟨[⟨"p1", 0, "db", "sch", true, [⟨"database", "db", none⟩], 30,
    [⟨"s1", 0, [wTs]⟩]⟩]⟩

/-- Witness for `c5_idempotent`: on a concrete plan the first run succeeds
and the second run succeeds without changing the database state. -/
theorem c5_idempotent_witness :
    wCfg.reset = false ∧ (execute wCfg wPlan wSt).1 = .ok () ∧
    (execute wCfg wPlan (execute wCfg wPlan wSt).2).1 = .ok () ∧
    dbView (execute wCfg wPlan (execute wCfg wPlan wSt).2).2 =
      dbView (execute wCfg wPlan wSt).2 := by
  have h := c5_idempotent wCfg wPlan wSt rfl (by decide)
  exact ⟨rfl, by decide, h.1, h.2.1⟩

theorem isDigit_not_isAlpha {c : Char} (h : c.isDigit = true) : c.isAlpha = false := by
  simp [Char.isDigit, Char.isAlpha, Char.isUpper, Char.isLower, decide_eq_true_eq] at *
  obtain ⟨h1, h2⟩ := h
  have n2 : c.toNat ≤ 57 := h2
  constructor
  · intro h3
    exact absurd (show (65 : ℕ) ≤ c.toNat from h3) (by omega)
  · intro h3
    exact absurd (show (97 : ℕ) ≤ c.toNat from h3) (by omega)

theorem isDigit_not_ws {c : Char} (h : c.isDigit = true) : c.isWhitespace = false := by
  simp [Char.isDigit, decide_eq_true_eq] at h
  obtain ⟨h1, h2⟩ := h
  have n1 : (48 : ℕ) ≤ c.toNat := h1
  have n2 : c.toNat ≤ 57 := h2
  simp [Char.isWhitespace, decide_eq_true_eq]
  repeat' apply And.intro
  all_goals intro hc
  all_goals subst hc
  all_goals exact absurd n1 (by decide)

theorem isDigit_ne_s {c : Char} (h : c.isDigit = true) : c ≠ 's' := by
  intro hc
  subst hc
  simp [Char.isDigit] at h

theorem isDigit_ne_dot {c : Char} (h : c.isDigit = true) : ¬c = '.' := by
  intro hc
  subst hc
  simp [Char.isDigit] at h

theorem isDigit_ne_sign {c : Char} (h : c.isDigit = true) : c ≠ '-' ∧ c ≠ '+' := by
  constructor <;> (intro hc; subst hc; simp [Char.isDigit] at h)

/-- Unit suffix characters as rendered by `format_duration`. -/
def unitChars : DUnit → List Char
  | .ms => ['m', 's']
  | .s => ['s']
  | .m => ['m']
  | .h => ['h']

/-- Rendering of a list of `{number}{unit}` segments (the concatenation
`parts.join("")` of `format_duration`). -/
def renderSegs : List (ℕ × DUnit) → List Char
  | [] => []
  | (n, u) :: t => natDecimal n ++ unitChars u ++ renderSegs t

/-- Exact nanosecond value of one segment. -/
def nsVal : ℕ × DUnit → ℕ
  | (n, .h) => n * 3600000000000
  | (n, .m) => n * 60000000000
  | (n, .s) => n * 1000000000
  | (n, .ms) => n * 1000000

/-- Exact nanosecond value of a segment list. -/
def nsOf (l : List (ℕ × DUnit)) : ℕ := (l.map nsVal).sum

theorem renderSegs_append (a b : List (ℕ × DUnit)) :
    renderSegs (a ++ b) = renderSegs a ++ renderSegs b := by
  induction a with
  | nil => simp [renderSegs]
  | cons p t ih =>
    obtain ⟨n, u⟩ := p
    simp [renderSegs, ih]

theorem natDecimal_head_digit (n : ℕ) :
    ∃ c cs, natDecimal n = c :: cs ∧ c.isDigit = true := by
  cases h : natDecimal n with
  | nil => exact absurd h (natDecimal_ne_nil n)
  | cons c cs =>
    exact ⟨c, cs, rfl, natDecimal_mem_isDigit n c (h ▸ List.mem_cons_self c cs)⟩

theorem findAlphaIdx_append {l : List Char} (hl : ∀ c ∈ l, c.isAlpha = false) {c : Char}
    (hc : c.isAlpha = true) (t : List Char) :
    findAlphaIdx (l ++ c :: t) = some l.length := by
  induction l with
  | nil => simp [findAlphaIdx, hc]
  | cons d ds ih =>
    have hd := hl d (by simp)
    have hds : ∀ x ∈ ds, x.isAlpha = false := fun x hx => hl x (by simp [hx])
    simp [findAlphaIdx, hd, ih hds]

theorem unitAt_render (u : DUnit) (t : List (ℕ × DUnit)) :
    unitAt (unitChars u ++ renderSegs t) = some (u, (unitChars u).length) := by
  cases u with
  | ms => rfl
  | s => rfl
  | h => rfl
  | m =>
    cases t with
    | nil => rfl
    | cons p t2 =>
      obtain ⟨n2, u2⟩ := p
      obtain ⟨c, cs, hnd, hcd⟩ := natDecimal_head_digit n2
      have hcs : ¬c = 's' := isDigit_ne_s hcd
      have hrw : unitChars DUnit.m ++ renderSegs ((n2, u2) :: t2) =
          'm' :: c :: (cs ++ (unitChars u2 ++ renderSegs t2)) := by
        simp [unitChars, renderSegs, hnd]
      rw [hrw]
      simp [unitAt, hcs, unitChars]

theorem parseNumD_digits {l : List Char} (hne : l ≠ [])
    (hdig : ∀ c ∈ l, c.isDigit = true) :
    parseNumD l = some (false, ⟨digitsVal l, 0⟩) := by
  obtain ⟨c, cs, rfl⟩ : ∃ c cs, l = c :: cs := by
    cases l with
    | nil => exact absurd rfl hne
    | cons c cs => exact ⟨c, cs, rfl⟩
  have hc := hdig c (by simp)
  have hdot : splitFirstDot (c :: cs) = none := splitFirstDot_none _ (by
    intro hm
    exact absurd (hdig _ hm) (by decide))
  have hsig := isDigit_ne_sign hc
  have hall : (c :: cs).all Char.isDigit = true := by
    rw [List.all_eq_true]
    exact hdig
  simp only [parseNumD]
  split
  · rename_i t heq
    rw [List.cons.injEq] at heq
    exact absurd heq.1 hsig.1
  · rename_i t heq
    rw [List.cons.injEq] at heq
    exact absurd heq.1 hsig.2
  · rename_i t h1 h2
    simp [hdot, hall]

theorem parseNumD_natDecimal (n : ℕ) :
    parseNumD (natDecimal n) = some (false, ⟨n, 0⟩) := by
  rw [parseNumD_digits (natDecimal_ne_nil n) (natDecimal_mem_isDigit n),
    digitsVal_natDecimal]

theorem segLoop_render (orig : List Char) :
    ∀ (segs : List (ℕ × DUnit)) (fuel : ℕ) (acc : DecV), segs.length ≤ fuel →
      segLoop orig fuel (renderSegs segs) acc =
        .ok (segs.foldl (fun a p => a.add (applyUnit p.2 ⟨p.1, 0⟩)) acc) := by
  intro segs
  induction segs with
  | nil =>
    intro fuel acc _
    cases fuel with
    | zero => rfl
    | succ F => rfl
  | cons p t ih =>
    obtain ⟨n, u⟩ := p
    intro fuel acc hf
    obtain ⟨F, rfl⟩ : ∃ F, fuel = F + 1 := ⟨fuel - 1, by simp at hf; omega⟩
    obtain ⟨c, cs, hnd, hcd⟩ := natDecimal_head_digit n
    obtain ⟨a, as, hua, haa⟩ : ∃ a as, unitChars u = a :: as ∧ a.isAlpha = true := by
      cases u
      · exact ⟨'m', ['s'], rfl, by decide⟩
      · exact ⟨'s', [], rfl, by decide⟩
      · exact ⟨'m', [], rfl, by decide⟩
      · exact ⟨'h', [], rfl, by decide⟩
    have hrem : renderSegs ((n, u) :: t) =
        c :: (cs ++ (unitChars u ++ renderSegs t)) := by
      simp [renderSegs, hnd]
    have hconv : c :: (cs ++ (unitChars u ++ renderSegs t)) =
        natDecimal n ++ (unitChars u ++ renderSegs t) := by
      rw [hnd]
      rfl
    have hfind : findAlphaIdx (natDecimal n ++ (unitChars u ++ renderSegs t)) =
        some (natDecimal n).length := by
      rw [hua, List.cons_append]
      exact findAlphaIdx_append
        (fun x hx => isDigit_not_isAlpha (natDecimal_mem_isDigit n x hx)) haa _
    have hL : (natDecimal n).length = cs.length + 1 := by
      rw [hnd]
      rfl
    rw [hrem]
    simp only [segLoop]
    rw [hconv, hfind, hL]
    simp only []
    rw [← hL, List.take_left' rfl, List.drop_left' rfl, unitAt_render u t,
      parseNumD_natDecimal n]
    simp only [numIsNeg]
    rw [List.drop_left]
    simp only [Bool.and_eq_true, if_false]
    rw [ih F (acc.add (applyUnit u ⟨n, 0⟩)) (by simp at hf; omega)]
    simp [List.foldl_cons]

theorem segFold_spec :
    ∀ (segs : List (ℕ × DUnit)) (acc : DecV) (V : ℕ), acc.exp ≤ 3 →
      acc.num * 1000000000 = V * 10 ^ acc.exp →
      (segs.foldl (fun a p => a.add (applyUnit p.2 ⟨p.1, 0⟩)) acc).exp ≤ 3 ∧
      (segs.foldl (fun a p => a.add (applyUnit p.2 ⟨p.1, 0⟩)) acc).num * 1000000000 =
        (V + nsOf segs) * 10 ^ (segs.foldl (fun a p => a.add (applyUnit p.2 ⟨p.1, 0⟩)) acc).exp := by
  intro segs
  induction segs with
  | nil =>
    intro acc V he hv
    simp [nsOf, he, hv]
  | cons p t ih =>
    obtain ⟨n, u⟩ := p
    intro acc V he hv
    rw [List.foldl_cons]
    have hstep : (acc.add (applyUnit u ⟨n, 0⟩)).exp ≤ 3 ∧
        (acc.add (applyUnit u ⟨n, 0⟩)).num * 1000000000 =
          (V + nsVal (n, u)) * 10 ^ (acc.add (applyUnit u ⟨n, 0⟩)).exp := by
      cases u with
      | h =>
        have hmax : max acc.exp 0 = acc.exp := by omega
        refine ⟨by simp [DecV.add, applyUnit, hmax, he], ?_⟩
        simp only [DecV.add, applyUnit, hmax, Nat.sub_zero, nsVal]
        rw [add_mul, Nat.sub_self, pow_zero, mul_one, hv]
        ring
      | m =>
        have hmax : max acc.exp 0 = acc.exp := by omega
        refine ⟨by simp [DecV.add, applyUnit, hmax, he], ?_⟩
        simp only [DecV.add, applyUnit, hmax, Nat.sub_zero, nsVal]
        rw [add_mul, Nat.sub_self, pow_zero, mul_one, hv]
        ring
      | s =>
        have hmax : max acc.exp 0 = acc.exp := by omega
        refine ⟨by simp [DecV.add, applyUnit, hmax, he], ?_⟩
        simp only [DecV.add, applyUnit, hmax, Nat.sub_zero, nsVal]
        rw [add_mul, Nat.sub_self, pow_zero, mul_one, hv]
        ring
      | ms =>
        have hmax : max acc.exp (0 + 3) = 3 := by omega
        refine ⟨by simp [DecV.add, applyUnit, hmax], ?_⟩
        simp only [DecV.add, applyUnit, hmax, Nat.sub_self, pow_zero, mul_one, nsVal]
        have hexp : acc.exp + (3 - acc.exp) = 3 := by omega
        calc (acc.num * 10 ^ (3 - acc.exp) + n) * 1000000000
            = acc.num * 1000000000 * 10 ^ (3 - acc.exp) + n * 1000000000 := by ring
          _ = V * 10 ^ acc.exp * 10 ^ (3 - acc.exp) + n * 1000000000 := by rw [hv]
          _ = V * 10 ^ (acc.exp + (3 - acc.exp)) + n * 1000000000 := by
              rw [mul_assoc, ← pow_add]
          _ = (V + n * 1000000) * 10 ^ 3 := by
              rw [hexp]
              ring
    obtain ⟨h1, h2⟩ := hstep
    have := ih (acc.add (applyUnit u ⟨n, 0⟩)) (V + nsVal (n, u)) h1 h2
    refine ⟨this.1, ?_⟩
    rw [this.2]
    simp [nsOf]
    ring

theorem roundNs_exact (v : DecV) (V : ℕ) (h : v.num * 1000000000 = V * 10 ^ v.exp) :
    roundNs v = V := by
  have hK : 0 < 10 ^ v.exp := pow_pos (by norm_num) v.exp
  unfold roundNs
  have hnum : 2 * v.num * 1000000000 + 10 ^ v.exp = (2 * V + 1) * 10 ^ v.exp := by
    calc 2 * v.num * 1000000000 + 10 ^ v.exp
        = 2 * (v.num * 1000000000) + 10 ^ v.exp := by ring
      _ = 2 * (V * 10 ^ v.exp) + 10 ^ v.exp := by rw [h]
      _ = (2 * V + 1) * 10 ^ v.exp := by ring
  rw [hnum]
  apply Nat.div_eq_of_lt_le
  · calc V * (2 * 10 ^ v.exp) = 2 * V * 10 ^ v.exp := by ring
      _ ≤ (2 * V + 1) * 10 ^ v.exp := Nat.mul_le_mul_right _ (by omega)
  · calc (2 * V + 1) * 10 ^ v.exp < (2 * V + 2) * 10 ^ v.exp :=
        (Nat.mul_lt_mul_right hK).mpr (by omega)
      _ = (V + 1) * (2 * 10 ^ v.exp) := by ring

/-- The segments `format_duration` renders for `d` nanoseconds, in order:
hours, minutes, seconds, milliseconds, each present when positive. -/
def segsOf (d : ℕ) : List (ℕ × DUnit) :=
  (if d / 1000000000 / 3600 > 0 then [(d / 1000000000 / 3600, DUnit.h)] else []) ++
  (if d / 1000000000 % 3600 / 60 > 0 then [(d / 1000000000 % 3600 / 60, DUnit.m)] else []) ++
  (if d / 1000000000 % 60 > 0 then [(d / 1000000000 % 60, DUnit.s)] else []) ++
  (if d % 1000000000 / 1000000 > 0 then [(d % 1000000000 / 1000000, DUnit.ms)] else [])

theorem format_eq_render (d : ℕ) (h0 : ¬d / 1000000 = 0) :
    format_duration d = String.mk (renderSegs (segsOf d)) ∧ segsOf d ≠ [] := by
  by_cases hh : d / 1000000000 / 3600 > 0 <;>
    by_cases hm : d / 1000000000 % 3600 / 60 > 0 <;>
    by_cases hs : d / 1000000000 % 60 > 0 <;>
    by_cases hms : d % 1000000000 / 1000000 > 0
  all_goals first
    | (exfalso; omega)
    | (refine ⟨?_, ?_⟩
       · simp [format_duration, h0, fmtPart, segsOf, renderSegs, unitChars, hh, hm, hs, hms]
       · simp [segsOf, hh, hm, hs, hms])

theorem unitChars_not_ws (u : DUnit) : ∀ c ∈ unitChars u, c.isWhitespace = false := by
  cases u <;> decide

theorem renderSegs_not_ws (segs : List (ℕ × DUnit)) :
    ∀ c ∈ renderSegs segs, c.isWhitespace = false := by
  induction segs with
  | nil => simp [renderSegs]
  | cons p t ih =>
    obtain ⟨n, u⟩ := p
    intro c hc
    simp only [renderSegs, List.mem_append] at hc
    rcases hc with (hc | hc) | hc
    · exact isDigit_not_ws (natDecimal_mem_isDigit n c hc)
    · exact unitChars_not_ws u c hc
    · exact ih c hc

theorem dropWhile_not_ws {l : List Char} (h : ∀ c ∈ l, c.isWhitespace = false) :
    l.dropWhile Char.isWhitespace = l := by
  cases l with
  | nil => rfl
  | cons c t => simp [List.dropWhile_cons, h c (by simp)]

theorem trimChars_of_not_ws {l : List Char} (h : ∀ c ∈ l, c.isWhitespace = false) :
    trimChars l = l := by
  unfold trimChars
  rw [dropWhile_not_ws h, dropWhile_not_ws (fun c hc => h c (List.mem_reverse.mp hc)),
    List.reverse_reverse]

theorem renderSegs_has_unit {segs : List (ℕ × DUnit)} (h : segs ≠ []) :
    ∃ c ∈ renderSegs segs, (c.isDigit || c = '.') = false := by
  cases segs with
  | nil => exact absurd rfl h
  | cons p t =>
    obtain ⟨n, u⟩ := p
    obtain ⟨a, hmem, hp⟩ : ∃ a ∈ unitChars u, (a.isDigit || a = '.') = false := by
      cases u
      · exact ⟨'m', by simp [unitChars], by decide⟩
      · exact ⟨'s', by simp [unitChars], by decide⟩
      · exact ⟨'m', by simp [unitChars], by decide⟩
      · exact ⟨'h', by simp [unitChars], by decide⟩
    exact ⟨a, by simp [renderSegs, hmem], hp⟩

theorem renderSegs_length_ge (segs : List (ℕ × DUnit)) :
    segs.length ≤ (renderSegs segs).length := by
  induction segs with
  | nil => simp [renderSegs]
  | cons p t ih =>
    obtain ⟨n, u⟩ := p
    have hnd : 0 < (natDecimal n).length := List.length_pos.mpr (natDecimal_ne_nil n)
    simp only [renderSegs, List.length_append, List.length_cons]
    omega

theorem nsOf_segsOf (d : ℕ) : nsOf (segsOf d) = d / 1000000 * 1000000 := by
  unfold segsOf
  split_ifs <;> simp [nsOf, nsVal] <;> omega

/-- C8 (amended): re-parsing the formatted rendering of a parsed duration
yields the duration truncated to whole milliseconds (`format_duration` drops
the sub-millisecond part), not always the original duration.  `d` is the
first parse's result in nanoseconds; the bound keeps `d` in the range where
the source's `f64` seconds arithmetic is exact (up to 2^22 seconds), so the
exact-decimal model coincides with the source. -/
theorem c8_round_trip (d : ℕ) (hd : d ≤ 4194304000000000) :
    parse_duration (format_duration d) = .ok (d / 1000000 * 1000000) := by
  by_cases h0 : d / 1000000 = 0
  · have hf : format_duration d = "0s" := by
      simp [format_duration, h0]
    rw [hf, h0]
    decide
  · obtain ⟨hf, hne⟩ := format_eq_render d h0
    rw [hf]
    have htrim : trimChars (renderSegs (segsOf d)) = renderSegs (segsOf d) :=
      trimChars_of_not_ws (renderSegs_not_ws _)
    have hcne : renderSegs (segsOf d) ≠ [] := by
      cases hsg : segsOf d with
      | nil => exact absurd hsg hne
      | cons p t =>
        obtain ⟨n, u⟩ := p
        simp only [renderSegs, ne_eq, List.append_eq_nil]
        intro hx
        exact natDecimal_ne_nil n hx.1.1
    have hall : (renderSegs (segsOf d)).all (fun c => c.isDigit || c = '.') = false := by
      obtain ⟨c, hcmem, hcp⟩ := renderSegs_has_unit hne
      rw [List.all_eq_false]
      exact ⟨c, hcmem, by simp [hcp]⟩
    have hfold := segLoop_render (renderSegs (segsOf d)) (segsOf d)
      ((renderSegs (segsOf d)).length + 1) ⟨0, 0⟩
      (by have := renderSegs_length_ge (segsOf d); omega)
    obtain ⟨hexp, hnum⟩ := segFold_spec (segsOf d) ⟨0, 0⟩ 0 (by norm_num) (by norm_num)
    have hrv : roundNs ((segsOf d).foldl
        (fun a p => a.add (applyUnit p.2 ⟨p.1, 0⟩)) ⟨0, 0⟩) = nsOf (segsOf d) :=
      roundNs_exact _ _ (by simpa using hnum)
    simp only [parse_duration, htrim, hcne, if_neg hcne, hall, Bool.false_eq_true,
      if_false, hfold, hrv, nsOf_segsOf d]

/-- C8 counterexample: `"0.5ms"` is accepted and parses to half a
millisecond (500000 ns), but `format_duration` renders that duration as
`"0s"`, which re-parses to zero — the parse-format-parse round trip is not
the identity on sub-millisecond durations. -/
theorem c8_counterexample :
    parse_duration "0.5ms" = .ok 500000 ∧
    format_duration 500000 = "0s" ∧
    parse_duration (format_duration 500000) = .ok 0 ∧
    (0 : ℕ) ≠ 500000 := by
  exact ⟨by decide, by decide, by decide, by decide⟩

/-- Witness for `c8_round_trip` at 90 seconds (rendered `"1m30s"`). -/
theorem c8_round_trip_witness :
    (90000000000 : ℕ) ≤ 4194304000000000 ∧
    parse_duration (format_duration 90000000000) =
      .ok (90000000000 / 1000000 * 1000000) :=
  ⟨by norm_num, c8_round_trip 90000000000 (by norm_num)⟩
